import Mathlib

/-!
PSBT key-value map core: a shallow embedding.

A verification development for the partially-signed-transaction (PSBT)
map engine: the `Global` and `Input` key-value maps, their
`insert_pair` / `get_pairs` operations, the `Global` pair-stream
decoder, and the merge policy.

The embedding follows `src/util/psbt/map/global.rs`,
`src/util/psbt/map/input.rs` and `src/util/psbt/error.rs` line by line.
Rust `BTreeMap`s become association lists kept sorted by the key order;
machine integers become `Nat` with explicit `% 256` / width bounds where
bytes are written; fallible operations return `Except Err`.  A Rust
method that takes `&mut self` and returns `Result<(), Error>` becomes a
function `State → Except Err State`: every error return in the
translated bodies happens before any field is written, so the error
branch of the embedding returning the untouched state is faithful.

Collaborator value types that the maps only pass through (public keys,
scripts, hash digests, extended public keys) are modelled as their byte
serializations; their codecs, and every definition whose source lives
outside the files at hand (the insert/emit macros, the raw-pair layer,
`merge`), are modelled from the specification and say so in their doc
comments.
-/

namespace Psbt

/-- Byte strings (`Vec<u8>`): each entry stands for one byte; the codecs
that produce bytes write values reduced `% 256`. -/
abbrev Bytes := List Nat

/-- Strict lexicographic order on byte strings: the derived `Ord` of
`Vec<u8>`, which orders the `BTreeMap` keys of the source. -/
def bytesLt : Bytes → Bytes → Bool
  | [], [] => false
  | [], _ :: _ => true
  | _ :: _, [] => false
  | a :: as, b :: bs =>
    if a < b then true else if b < a then false else bytesLt as bs

/-- Association-list lookup: the model of `BTreeMap` lookup / `Entry`
occupancy testing. -/
def alookup {K V : Type} [DecidableEq K] (k : K) : List (K × V) → Option V
  | [] => none
  | (k', v) :: t => if k = k' then some v else alookup k t

/-- Insertion into an association list kept sorted by `lt`, replacing an
entry with an equal key: the model of `BTreeMap::insert`.  (The map code
under study only ever inserts through a vacant `Entry`, so the
replacement branch is never reached there.) -/
def sortedInsert {K V : Type} [DecidableEq K] (lt : K → K → Bool) (k : K) (v : V) :
    List (K × V) → List (K × V)
  | [] => [(k, v)]
  | (k', v') :: t =>
    if lt k k' then (k, v) :: (k', v') :: t
    else if k = k' then (k, v) :: t
    else (k', v') :: sortedInsert lt k v t

/-- Union of two maps where entries already in `self` win: `other`'s
entries are folded in, and one whose key is already bound is silently
dropped.  Modelled from the spec: the merge policy's "unioned (on key
collision, existing entries in `self` win)". -/
def unionKeep {K V : Type} [DecidableEq K] (lt : K → K → Bool)
    (self other : List (K × V)) : List (K × V) :=
  other.foldl
    (fun m kv => if (alookup kv.1 m).isSome then m else sortedInsert lt kv.1 kv.2 m)
    self

/-- Scalar-option merge: take `other`'s value only when `self`'s is
unset.  Modelled from the spec's merge policy for scalar optional
fields. -/
def optKeep {α : Type} (self other : Option α) : Option α :=
  match self with
  | some v => some v
  | none => other

/-- Sortedness of an association list: every key strictly precedes all
later keys.  The invariant a decoded `BTreeMap` enjoys. -/
def MapSorted {K V : Type} (lt : K → K → Bool) (l : List (K × V)) : Prop :=
  l.Pairwise (fun a b => lt a.1 b.1 = true)

instance {K V : Type} (lt : K → K → Bool) (l : List (K × V)) :
    Decidable (MapSorted lt l) := by
  unfold MapSorted
  infer_instance

/-- Key-disjointness of two association lists, as a boolean so concrete
instances evaluate. -/
def keysDisjoint {K V : Type} [DecidableEq K] (l₁ l₂ : List (K × V)) : Bool :=
  l₁.all (fun kv => (alookup kv.1 l₂).isNone)

/-! ## Little-endian integers and the compact-size varint

Modelled from the spec: the consensus integer codecs of the collaborator
transaction/script data model (`u32` / `u64` little-endian, and the
variable-length count prefix). -/

/-- Four little-endian bytes of `n % 2^32`. -/
def u32LE (n : Nat) : Bytes :=
  [n % 256, n / 256 % 256, n / 65536 % 256, n / 16777216 % 256]

/-- Read a little-endian `u32`; fails on fewer than four bytes. -/
def readU32LE : Bytes → Option (Nat × Bytes)
  | b0 :: b1 :: b2 :: b3 :: rest =>
    some (b0 + 256 * b1 + 65536 * b2 + 16777216 * b3, rest)
  | _ => none

/-- Eight little-endian bytes of `n % 2^64`. -/
def u64LE (n : Nat) : Bytes :=
  [n % 256, n / 256 % 256, n / 65536 % 256, n / 16777216 % 256,
   n / 4294967296 % 256, n / 1099511627776 % 256,
   n / 281474976710656 % 256, n / 72057594037927936 % 256]

/-- Read a little-endian `u64`; fails on fewer than eight bytes. -/
def readU64LE : Bytes → Option (Nat × Bytes)
  | b0 :: b1 :: b2 :: b3 :: b4 :: b5 :: b6 :: b7 :: rest =>
    some (b0 + 256 * b1 + 65536 * b2 + 16777216 * b3 + 4294967296 * b4
      + 1099511627776 * b5 + 281474976710656 * b6
      + 72057594037927936 * b7, rest)
  | _ => none

/-- The compact-size variable-length integer. -/
def varint (n : Nat) : Bytes :=
  if n < 253 then [n]
  else if n < 65536 then 253 :: [n % 256, n / 256 % 256]
  else if n < 4294967296 then 254 :: u32LE n
  else 255 :: u64LE n

/-- Read a compact-size variable-length integer. -/
def readVarint : Bytes → Option (Nat × Bytes)
  | [] => none
  | b :: rest =>
    if b < 253 then some (b, rest)
    else if b = 253 then
      match rest with
      | b0 :: b1 :: r => some (b0 + 256 * b1, r)
      | _ => none
    else if b = 254 then readU32LE rest
    else readU64LE rest

/-- Read exactly `n` bytes; fails when fewer remain. -/
def readBytesN (n : Nat) (bs : Bytes) : Option (Bytes × Bytes) :=
  if n ≤ bs.length then some (bs.take n, bs.drop n) else none

/-- Read a length-prefixed byte string. -/
def readVarBytes (bs : Bytes) : Option (Bytes × Bytes) := do
  let (n, r) ← readVarint bs
  readBytesN n r

/-- Split a byte string into little-endian `u32` values four bytes at a
time; fails unless the length is a multiple of four. -/
def chunks4 : Bytes → Option (List Nat)
  | [] => some []
  | b0 :: b1 :: b2 :: b3 :: rest =>
    (chunks4 rest).map (fun l => (b0 + 256 * b1 + 65536 * b2 + 16777216 * b3) :: l)
  | _ => none

/-! ## The raw-pair layer (`util::psbt::raw`)

The raw key/pair value types.  Their byte-stream codec belongs to the
raw-pair module, which is outside the files under study; the map-level
functions below therefore consume and produce *sequences of raw pairs*,
the exact interface the map code sees (one pair per loop iteration,
end-of-map when the stream ends). -/

namespace raw

/-- A raw PSBT key: one type-tag byte and opaque key data
(`raw::Key { type_value: u8, key: Vec<u8> }`). -/
structure Key where
  type_value : Nat
  key : Bytes
deriving DecidableEq

/-- A raw key-value pair (`raw::Pair`). -/
structure Pair where
  key : Key
  value : Bytes
deriving DecidableEq

/-- The derived order on raw keys: type tag first, then key bytes. -/
def keyLt (a b : Key) : Bool :=
  if a.type_value < b.type_value then true
  else if b.type_value < a.type_value then false
  else bytesLt a.key b.key

/-- A proprietary key (`raw::ProprietaryKey`): vendor identifier,
sub-type byte, sub-key data.  The source names the identifier field
after its role as the leading vendor bytes. -/
structure ProprietaryKey where
  identifier : Bytes
  subtype : Nat
  key : Bytes
deriving DecidableEq

/-- The derived order on proprietary keys: identifier, then subtype,
then sub-key data. -/
def propKeyLt (a b : ProprietaryKey) : Bool :=
  if bytesLt a.identifier b.identifier then true
  else if bytesLt b.identifier a.identifier then false
  else if a.subtype < b.subtype then true
  else if b.subtype < a.subtype then false
  else bytesLt a.key b.key

/-- Embed a proprietary key as a raw key with the reserved `0xFC` tag:
length-prefixed identifier, subtype byte, then the sub-key bytes.
Modelled from the spec: the proprietary key codec is a "nested key
structure (identifier prefix + sub-type + sub-key bytes)" reversibly
embedded under the proprietary sentinel tag. -/
def ProprietaryKey.to_key (p : ProprietaryKey) : Key :=
  ⟨0xFC, varint p.identifier.length ++ p.identifier ++ p.subtype :: p.key⟩

end raw

/-! ## The error taxonomy (`util::psbt::error`) -/

/-- The hash-algorithm wrapper carried by the preimage-mismatch error
(`error::PsbtHash`); digests are carried as their bytes. -/
inductive PsbtHash where
  | Ripemd160 (digest : Bytes)
  | Sha256 (digest : Bytes)
  | Hash256 (digest : Bytes)
  | Hash160 (digest : Bytes)
deriving DecidableEq

/-- The forward declaration of the transaction value type (filled in
below); kept here so `Err` can carry transactions. -/
structure OutPoint where
  txid : Bytes
  vout : Nat
deriving DecidableEq

/-- One transaction input of the collaborator transaction type: an
outpoint, a signature script, a sequence number and a witness stack. -/
structure TxIn where
  previous_output : OutPoint
  script_sig : Bytes
  sequence : Nat
  witness : List Bytes
deriving DecidableEq

/-- One transaction output: value and spending-condition script. -/
structure TxOut where
  value : Nat
  script_pubkey : Bytes
deriving DecidableEq

/-- The collaborator transaction type, as far as the map core reads it:
version, inputs, outputs, lock time. -/
structure Transaction where
  version : Nat
  input : List TxIn
  output : List TxOut
  lock_time : Nat
deriving DecidableEq

/-- The PSBT error taxonomy (`psbt::Error`), merged with the generic
consensus-encoding failure the map code surfaces through
`encode::Error` (`ParseFailed` with its reason string;
`ConsensusEncoding` standing for the remaining io/encoding failures of
the collaborator codecs). -/
inductive Err where
  | InvalidMagic
  | InvalidSeparator
  | InvalidKey (k : raw.Key)
  | InvalidProprietaryKey
  | DuplicateKey (k : raw.Key)
  | UnsignedTxHasScriptSigs
  | UnsignedTxHasScriptWitnesses
  | MustHaveUnsignedTx
  | NoMorePairs
  | UnexpectedUnsignedTx (expected actual : Transaction)
  | NonStandardSigHashType (n : Nat)
  | HashParseError
  | InvalidPreimageHashPair (preimage : Bytes) (hash : PsbtHash)
  | ParseFailed (reason : String)
  | ConsensusEncoding
deriving DecidableEq

deriving instance DecidableEq for Except

/-! ## Collaborator value codecs

Modelled from the spec (§6 of the design document): the transaction and
script value types provide canonical consensus encodings; fixed-width
values must consume their declared length exactly.  Value types the
maps never interpret (public keys, scripts, extended public keys, hash
digests) are carried as their serialized bytes, with their decoders
enforcing the fixed shapes the spec names (33/65-byte public keys,
78-byte extended keys, 20/32-byte digests). -/

/-- Consensus encoding of an outpoint: the 32-byte txid then the output
index. -/
def serOutPoint (o : OutPoint) : Bytes := o.txid ++ u32LE o.vout

/-- Read an outpoint. -/
def readOutPoint (bs : Bytes) : Option (OutPoint × Bytes) := do
  let (t, r) ← readBytesN 32 bs
  let (v, r2) ← readU32LE r
  some (⟨t, v⟩, r2)

/-- Consensus encoding of a transaction input (witness data is carried
separately and never written here). -/
def serTxIn (i : TxIn) : Bytes :=
  serOutPoint i.previous_output ++ varint i.script_sig.length ++ i.script_sig
    ++ u32LE i.sequence

/-- Read a transaction input; the witness stack of a freshly decoded
input is empty. -/
def readTxIn (bs : Bytes) : Option (TxIn × Bytes) := do
  let (o, r) ← readOutPoint bs
  let (s, r2) ← readVarBytes r
  let (q, r3) ← readU32LE r2
  some (⟨o, s, q, []⟩, r3)

/-- Consensus encoding of a transaction output. -/
def serTxOut (o : TxOut) : Bytes :=
  u64LE o.value ++ varint o.script_pubkey.length ++ o.script_pubkey

/-- Read a transaction output. -/
def readTxOut (bs : Bytes) : Option (TxOut × Bytes) := do
  let (v, r) ← readU64LE bs
  let (s, r2) ← readVarBytes r
  some (⟨v, s⟩, r2)

/-- Consensus encoding of a count-prefixed list. -/
def serList {α : Type} (f : α → Bytes) (l : List α) : Bytes :=
  varint l.length ++ (l.map f).flatten

/-- Read `n` consecutive items. -/
def readCount {α : Type} (f : Bytes → Option (α × Bytes)) :
    Nat → Bytes → Option (List α × Bytes)
  | 0, bs => some ([], bs)
  | n + 1, bs => do
    let (a, r) ← f bs
    let (as, r2) ← readCount f n r
    some (a :: as, r2)

/-- Read a count-prefixed list. -/
def readList {α : Type} (f : Bytes → Option (α × Bytes)) (bs : Bytes) :
    Option (List α × Bytes) := do
  let (n, r) ← readVarint bs
  readCount f n r

/-- The value bytes of the mandatory unsigned-transaction field: the
source writes version, inputs, outputs and lock time positionally,
deliberately without any witness data. -/
def serUnsignedTxValue (tx : Transaction) : Bytes :=
  u32LE tx.version ++ serList serTxIn tx.input ++ serList serTxOut tx.output
    ++ u32LE tx.lock_time

/-- Read a transaction written in the witness-free positional form:
version, inputs, outputs, lock time. -/
def readUnsignedTx (bs : Bytes) : Option (Transaction × Bytes) := do
  let (v, r) ← readU32LE bs
  let (ins, r2) ← readList readTxIn r
  let (outs, r3) ← readList readTxOut r2
  let (lt, r4) ← readU32LE r3
  some (⟨v, ins, outs, lt⟩, r4)

/-- Whole-buffer deserialization of a transaction value (used for the
non-witness UTXO field): the decode must consume the value exactly. -/
def desTransaction (bs : Bytes) : Except Err Transaction :=
  match readUnsignedTx bs with
  | some (tx, []) => .ok tx
  | _ => .error .ConsensusEncoding

/-- Whole-buffer deserialization of a transaction output (the witness
UTXO field). -/
def desTxOut (bs : Bytes) : Except Err TxOut :=
  match readTxOut bs with
  | some (o, []) => .ok o
  | _ => .error .ConsensusEncoding

/-- Scripts deserialize from their value bytes verbatim. -/
def desScript (bs : Bytes) : Except Err Bytes := .ok bs

/-- Opaque byte values (`Vec<u8>`) deserialize verbatim. -/
def desBytes (bs : Bytes) : Except Err Bytes := .ok bs

/-- The recognized signature-hash-type enumerants
(`SigHashType::from_u32` on the standard set). -/
def sigHashStandard (n : Nat) : Bool :=
  n = 1 || n = 2 || n = 3 || n = 0x81 || n = 0x82 || n = 0x83

/-- Deserialize a sighash type: exactly four little-endian bytes that
must name a recognized enumerant, else the non-standard-sighash error
carrying the literal value. -/
def desSigHashType (bs : Bytes) : Except Err Nat :=
  match readU32LE bs with
  | some (n, []) => if sigHashStandard n then .ok n else .error (.NonStandardSigHashType n)
  | _ => .error .ConsensusEncoding

/-- A key source: master-key fingerprint bytes and the derivation path
as child indices (`KeySource = (Fingerprint, DerivationPath)`). -/
abbrev KeySource := Bytes × List Nat

/-- Deserialize a key source: a 4-byte fingerprint then 4-byte child
indices filling the rest of the value exactly. -/
def desKeySource (bs : Bytes) : Except Err KeySource :=
  match bs with
  | b0 :: b1 :: b2 :: b3 :: rest =>
    match chunks4 rest with
    | some path => .ok ([b0, b1, b2, b3], path)
    | none => .error .ConsensusEncoding
  | _ => .error .ConsensusEncoding

/-- Deserialize a public key from raw key data: the collaborator codec
accepts the 33-byte compressed and 65-byte uncompressed forms and is
carried as its bytes. -/
def desPubKey (bs : Bytes) : Except Err Bytes :=
  if bs.length = 33 || bs.length = 65 then .ok bs else .error .ConsensusEncoding

/-- Deserialize a fixed-width hash digest (20 bytes for the ripemd160
and hash160 fields, 32 for the sha256 and sha256d fields); a wrong
length is the hash-parse failure. -/
def desDigest (width : Nat) (bs : Bytes) : Except Err Bytes :=
  if bs.length = width then .ok bs else .error .HashParseError

/-- Deserialize an extended public key from raw key data: the
collaborator codec's canonical 78-byte form, carried as its bytes. -/
def desXpub (bs : Bytes) : Except Err Bytes :=
  if bs.length = 78 then .ok bs else .error .ConsensusEncoding

/-- Deserialize a `u32` value field: exactly four little-endian
bytes. -/
def desU32 (bs : Bytes) : Except Err Nat :=
  match readU32LE bs with
  | some (n, []) => .ok n
  | _ => .error .ConsensusEncoding

/-- Deserialize a final-witness stack (`Vec<Vec<u8>>`): a count prefix
then that many length-prefixed byte strings, consuming the value
exactly. -/
def desWitnessStack (bs : Bytes) : Except Err (List Bytes) :=
  match readList readVarBytes bs with
  | some (l, []) => .ok l
  | _ => .error .ConsensusEncoding

/-- Extract a proprietary key from a raw key: the tag must be the
`0xFC` sentinel, the key data parses as length-prefixed identifier,
subtype byte, and the remaining sub-key bytes.  Modelled from the spec:
the proprietary key codec and its lossless embedding. -/
def raw.ProprietaryKey.from_key (k : raw.Key) : Except Err raw.ProprietaryKey :=
  if k.type_value = 0xFC then
    match readVarBytes k.key with
    | some (ident, sub :: rest) => .ok ⟨ident, sub, rest⟩
    | _ => .error .ConsensusEncoding
  else .error .InvalidProprietaryKey

/-- Serialization of a key source on emit: fingerprint bytes then each
child index as four little-endian bytes. -/
def serKeySource (ks : KeySource) : Bytes :=
  ks.1 ++ (ks.2.map u32LE).flatten

/-- Serialization of a final-witness stack on emit. -/
def serWitnessStack (l : List Bytes) : Bytes :=
  serList (fun s => varint s.length ++ s) l

/-! ## The shared insert helpers

Modelled from the spec: the bodies of the per-field insert macros the
map sources invoke (`impl_psbt_insert_pair`,
`impl_psbt_insert_hash_pair`), whose definitions live outside the files
under study.  An unkeyed field demands an empty raw key and a vacant
slot; a keyed field demands a non-empty raw key whose data parses as
the field's key type and a vacant map entry; a populated slot or entry
is the fatal `DuplicateKey`, reported before the value is read.  The
hash-preimage variant additionally verifies `hash(value) == key` inside
the vacant branch and reports the preimage-mismatch error carrying the
offending preimage and digest. -/

/-- Insert into an unkeyed optional slot. -/
def insertUnkeyed {α : Type} (k : raw.Key) (value : Bytes) (slot : Option α)
    (des : Bytes → Except Err α) : Except Err (Option α) :=
  if k.key = [] then
    match slot with
    | none => do pure (some (← des value))
    | some _ => .error (.DuplicateKey k)
  else .error (.InvalidKey k)

/-- Insert into a keyed map slot. -/
def insertKeyed {K V : Type} [DecidableEq K] (lt : K → K → Bool) (k : raw.Key)
    (value : Bytes) (m : List (K × V)) (desK : Bytes → Except Err K)
    (desV : Bytes → Except Err V) : Except Err (List (K × V)) :=
  if k.key = [] then .error (.InvalidKey k)
  else do
    let kv ← desK k.key
    match alookup kv m with
    | none => do
      let v ← desV value
      pure (sortedInsert lt kv v m)
    | some _ => .error (.DuplicateKey k)

/-- Insert into a hash-preimage map: the digest is the key, and the
value must hash to it under the given collaborator hash function. -/
def insertHashKeyed (h : Bytes → Bytes) (ctor : Bytes → PsbtHash) (width : Nat)
    (k : raw.Key) (value : Bytes) (m : List (Bytes × Bytes)) :
    Except Err (List (Bytes × Bytes)) :=
  if k.key = [] then .error (.InvalidKey k)
  else do
    let d ← desDigest width k.key
    match alookup d m with
    | none => do
      let v ← desBytes value
      if h v = d then pure (sortedInsert bytesLt d v m)
      else .error (.InvalidPreimageHashPair v (ctor d))
    | some _ => .error (.DuplicateKey k)

/-- Insert into a proprietary bucket: the raw key must extract as a
proprietary key, and the entry must be vacant (`Entry::Occupied` is the
fatal `DuplicateKey`). -/
def insertProprietary (k : raw.Key) (value : Bytes)
    (m : List (raw.ProprietaryKey × Bytes)) :
    Except Err (List (raw.ProprietaryKey × Bytes)) := do
  let pk ← raw.ProprietaryKey.from_key k
  match alookup pk m with
  | none => pure (sortedInsert raw.propKeyLt pk value m)
  | some _ => .error (.DuplicateKey k)

/-- Insert into an unknown bucket, keyed by the full raw key.  (The
source reports the stored key on a duplicate; it equals the probe
key.) -/
def insertUnknown (k : raw.Key) (value : Bytes) (m : List (raw.Key × Bytes)) :
    Except Err (List (raw.Key × Bytes)) :=
  match alookup k m with
  | none => .ok (sortedInsert raw.keyLt k value m)
  | some _ => .error (.DuplicateKey k)

/-! ## The Global map (`util::psbt::map::global`) -/

/-- The global key-value map (`Global`): the mandatory unsigned
transaction, the extended-public-key registry, the format version, and
the proprietary and unknown buckets. -/
structure Global where
  unsigned_tx : Transaction
  xpub : List (Bytes × KeySource)
  version : Nat
  proprietary : List (raw.ProprietaryKey × Bytes)
  unknown : List (raw.Key × Bytes)
deriving DecidableEq

/-- `Global::from_unsigned_tx`: walk the inputs in order; a non-empty
signature script is `UnsignedTxHasScriptSigs`, then a non-empty witness
stack is `UnsignedTxHasScriptWitnesses`; otherwise construct the map
with empty registries and version 0. -/
def checkUnsignedInputs : List TxIn → Option Err
  | [] => none
  | txin :: t =>
    if txin.script_sig ≠ [] then some .UnsignedTxHasScriptSigs
    else if txin.witness ≠ [] then some .UnsignedTxHasScriptWitnesses
    else checkUnsignedInputs t

/-- Create a `Global` from an unsigned transaction, erroring when any
input already carries spend proof. -/
def Global.from_unsigned_tx (tx : Transaction) : Except Err Global :=
  match checkUnsignedInputs tx.input with
  | some e => .error e
  | none => .ok ⟨tx, [], 0, [], []⟩

/-- `Global::insert_pair`, dispatching on the type tag.  The
unsigned-transaction tag `0x00` is unconditionally `DuplicateKey`.  The
version branch follows the source exactly: the macro's duplicate check
runs against a per-call local `version` slot that is always vacant, so
a version pair never reports `DuplicateKey` and overwrites the stored
version on success. -/
def Global.insert_pair (g : Global) (p : raw.Pair) : Except Err Global :=
  if p.key.type_value = 0x00 then .error (.DuplicateKey p.key)
  else if p.key.type_value = 0x01 then do
    let m ← insertKeyed bytesLt p.key p.value g.xpub desXpub desKeySource
    pure { g with xpub := m }
  else if p.key.type_value = 0xFB then
    if p.key.key = [] then do
      let ver ← desU32 p.value
      pure { g with version := ver }
    else .error (.InvalidKey p.key)
  else if p.key.type_value = 0xFC then do
    let m ← insertProprietary p.key p.value g.proprietary
    pure { g with proprietary := m }
  else do
    let m ← insertUnknown p.key p.value g.unknown
    pure { g with unknown := m }

/-- `Global::get_pairs`: push the mandatory unsigned-transaction pair
(the transaction written positionally without witness data), then every
proprietary entry, then every unknown entry, in the maps' key order. -/
def Global.get_pairs (g : Global) : List raw.Pair :=
  let rv : List raw.Pair := []
  let rv := rv ++ [⟨⟨0x00, []⟩, serUnsignedTxValue g.unsigned_tx⟩]
  let rv := g.proprietary.foldl (fun rv kv => rv ++ [⟨kv.1.to_key, kv.2⟩]) rv
  let rv := g.unknown.foldl (fun rv kv => rv ++ [⟨kv.1, kv.2⟩]) rv
  rv

/-- The loop state of `Decodable for Global`: the locals accumulated
while the pair loop runs. -/
structure GlobalDecodeState where
  tx : Option Transaction
  version : Option Nat
  unknowns : List (raw.Key × Bytes)
  proprietary : List (raw.ProprietaryKey × Bytes)
  xpub_map : List (Bytes × KeySource)
deriving DecidableEq

/-- The initial decode state: nothing seen yet. -/
def globalDecodeInit : GlobalDecodeState := ⟨none, none, [], [], []⟩

/-- The xpub key-data parse of the Global decode loop, with its parse
failure remapped to the loop's own message. -/
def xpubKeyParse (bs : Bytes) : Except Err Bytes :=
  match desXpub bs with
  | .error _ =>
    .error (.ParseFailed "Can't deserialize ExtendedPublicKey from global XPUB key data")
  | .ok x => .ok x

/-- The xpub value parse of the Global decode loop: a 4-byte
fingerprint read (failing as an io error when the value is shorter),
then 4-byte child indices until the value runs out, with an
exact-consumption check. -/
def readXpubValue (value : Bytes) : Except Err KeySource :=
  match value with
  | b0 :: b1 :: b2 :: b3 :: rest =>
    match chunks4 rest with
    | some path => .ok ([b0, b1, b2, b3], path)
    | none =>
      .error (.ParseFailed "data not consumed entirely when explicitly deserializing")
  | _ => .error .ConsensusEncoding

/-- The xpub registry insert of the Global decode loop: BIP-174 keys
must be unique, and the loop reports a repeat as a parse failure with
its own message (not as `DuplicateKey`). -/
def xpubInsert (xpub : Bytes) (ks : KeySource) (m : List (Bytes × KeySource)) :
    Except Err (List (Bytes × KeySource)) :=
  match alookup xpub m with
  | none => .ok (sortedInsert bytesLt xpub ks m)
  | some _ => .error (.ParseFailed "Repeated global xpub key")

/-- One iteration of the `Decodable for Global` pair loop, transcribed
branch for branch: the unsigned transaction (empty key, single
occurrence, manual positional parse with an exact-consumption check),
the version (empty key, single occurrence, exactly four bytes), the
xpub registry (its own parse-failure strings, including
`"Repeated global xpub key"` on a repeated xpub rather than
`DuplicateKey`), the proprietary bucket, and the unknown bucket. -/
def globalStep (s : GlobalDecodeState) (p : raw.Pair) :
    Except Err GlobalDecodeState :=
  if p.key.type_value = 0x00 then
    if p.key.key = [] then
      match s.tx with
      | none =>
        match readUnsignedTx p.value with
        | some (tx, rest) =>
          if rest = [] then .ok { s with tx := some tx }
          else .error (.ParseFailed "data not consumed entirely when explicitly deserializing")
        | none => .error .ConsensusEncoding
      | some _ => .error (.DuplicateKey p.key)
    else .error (.InvalidKey p.key)
  else if p.key.type_value = 0xFB then
    if p.key.key = [] then
      match s.version with
      | none =>
        if p.value.length ≠ 4 then
          .error (.ParseFailed "Wrong global version value length (must be 4 bytes)")
        else
          match readU32LE p.value with
          | some (n, rest) =>
            if rest = [] then .ok { s with version := some n }
            else .error (.ParseFailed "data not consumed entirely when explicitly deserializing")
          | none => .error .ConsensusEncoding
      | some _ => .error (.DuplicateKey p.key)
    else .error (.InvalidKey p.key)
  else if p.key.type_value = 0x01 then
    if p.key.key ≠ [] then do
      let xpub ← xpubKeyParse p.key.key
      let ks ← readXpubValue p.value
      let m ← xpubInsert xpub ks s.xpub_map
      pure { s with xpub_map := m }
    else .error (.ParseFailed "Xpub global key must contain serialized Xpub data")
  else if p.key.type_value = 0xFC then do
    let m ← insertProprietary p.key p.value s.proprietary
    pure { s with proprietary := m }
  else do
    let m ← insertUnknown p.key p.value s.unknowns
    pure { s with unknowns := m }

/-- `Decodable for Global` at the pair-stream level: run the loop over
the pairs (end-of-map is the end of the list), then demand the
mandatory unsigned transaction — its absence after the loop is the
fatal `MustHaveUnsignedTx` — and rebuild the map *through the
constructor*, so the unsigned-input invariant is re-checked. -/
def Global.consensus_decode (ps : List raw.Pair) : Except Err Global := do
  let s ← ps.foldlM globalStep globalDecodeInit
  match s.tx with
  | some tx => do
    let g ← Global.from_unsigned_tx tx
    pure { g with version := s.version.getD 0, xpub := s.xpub_map,
                  proprietary := s.proprietary, unknown := s.unknowns }
  | none => .error .MustHaveUnsignedTx

/-- Merge for `Global`.  Modelled from the spec: the unsigned
transactions must be identical (else the fatal `UnexpectedUnsignedTx`
carrying both); the xpub registry and the proprietary and unknown
buckets are unioned with existing entries in `self` winning. -/
def Global.merge (self other : Global) : Except Err Global :=
  if self.unsigned_tx = other.unsigned_tx then
    .ok { self with
      xpub := unionKeep bytesLt self.xpub other.xpub
      proprietary := unionKeep raw.propKeyLt self.proprietary other.proprietary
      unknown := unionKeep raw.keyLt self.unknown other.unknown }
  else .error (.UnexpectedUnsignedTx self.unsigned_tx other.unsigned_tx)

/-! ## The Input map (`util::psbt::map::input`) -/

/-- The four collaborator hash functions the preimage fields validate
against (two 20-byte digest algorithms, one 32-byte hash, one 32-byte
double hash), handed in as an interface. -/
structure HashFns where
  ripemd160 : Bytes → Bytes
  sha256 : Bytes → Bytes
  hash160 : Bytes → Bytes
  sha256d : Bytes → Bytes

/-- The per-input key-value map (`Input`), field for field: spending
UTXO evidence, partial signatures, script material, derivation hints,
finalized scripts, the four hash-preimage maps, and the proprietary and
unknown buckets. -/
structure Input where
  non_witness_utxo : Option Transaction
  witness_utxo : Option TxOut
  partial_sigs : List (Bytes × Bytes)
  sighash_type : Option Nat
  redeem_script : Option Bytes
  witness_script : Option Bytes
  bip32_derivation : List (Bytes × KeySource)
  final_script_sig : Option Bytes
  final_script_witness : Option (List Bytes)
  ripemd_preimages : List (Bytes × Bytes)
  sha256_preimages : List (Bytes × Bytes)
  hash160_preimages : List (Bytes × Bytes)
  hash256_preimages : List (Bytes × Bytes)
  proprietary : List (raw.ProprietaryKey × Bytes)
  unknown : List (raw.Key × Bytes)
deriving DecidableEq

/-- The empty input map (`Input::default`), the per-input slot an
envelope starts from. -/
def Input.default : Input :=
  ⟨none, none, [], none, none, none, [], none, none, [], [], [], [], [], []⟩

/-- `Input::insert_pair`, dispatching on the type tag in the source's
order: the nine typed fields `0x00`–`0x08`, the proprietary bucket
`0xFC`, the four hash-preimage fields `10`–`13`, and the unknown bucket
for everything else. -/
def Input.insert_pair (H : HashFns) (i : Input) (p : raw.Pair) :
    Except Err Input :=
  if p.key.type_value = 0x00 then do
    let s ← insertUnkeyed p.key p.value i.non_witness_utxo desTransaction
    pure { i with non_witness_utxo := s }
  else if p.key.type_value = 0x01 then do
    let s ← insertUnkeyed p.key p.value i.witness_utxo desTxOut
    pure { i with witness_utxo := s }
  else if p.key.type_value = 0x02 then do
    let m ← insertKeyed bytesLt p.key p.value i.partial_sigs desPubKey desBytes
    pure { i with partial_sigs := m }
  else if p.key.type_value = 0x03 then do
    let s ← insertUnkeyed p.key p.value i.sighash_type desSigHashType
    pure { i with sighash_type := s }
  else if p.key.type_value = 0x04 then do
    let s ← insertUnkeyed p.key p.value i.redeem_script desScript
    pure { i with redeem_script := s }
  else if p.key.type_value = 0x05 then do
    let s ← insertUnkeyed p.key p.value i.witness_script desScript
    pure { i with witness_script := s }
  else if p.key.type_value = 0x06 then do
    let m ← insertKeyed bytesLt p.key p.value i.bip32_derivation desPubKey desKeySource
    pure { i with bip32_derivation := m }
  else if p.key.type_value = 0x07 then do
    let s ← insertUnkeyed p.key p.value i.final_script_sig desScript
    pure { i with final_script_sig := s }
  else if p.key.type_value = 0x08 then do
    let s ← insertUnkeyed p.key p.value i.final_script_witness desWitnessStack
    pure { i with final_script_witness := s }
  else if p.key.type_value = 0xFC then do
    let m ← insertProprietary p.key p.value i.proprietary
    pure { i with proprietary := m }
  else if p.key.type_value = 10 then do
    let m ← insertHashKeyed H.ripemd160 PsbtHash.Ripemd160 20 p.key p.value i.ripemd_preimages
    pure { i with ripemd_preimages := m }
  else if p.key.type_value = 11 then do
    let m ← insertHashKeyed H.sha256 PsbtHash.Sha256 32 p.key p.value i.sha256_preimages
    pure { i with sha256_preimages := m }
  else if p.key.type_value = 12 then do
    let m ← insertHashKeyed H.hash160 PsbtHash.Hash160 20 p.key p.value i.hash160_preimages
    pure { i with hash160_preimages := m }
  else if p.key.type_value = 13 then do
    let m ← insertHashKeyed H.sha256d PsbtHash.Hash256 32 p.key p.value i.hash256_preimages
    pure { i with hash256_preimages := m }
  else do
    let m ← insertUnknown p.key p.value i.unknown
    pure { i with unknown := m }

/-- The optional-field emit step (the body of the unkeyed
`impl_psbt_get_pair` macro arm, modelled from the spec): push the
field's single pair when present, leave the vector alone when absent. -/
def pushOpt {α : Type} (rv : List raw.Pair) (tag : Nat) (ser : α → Bytes) :
    Option α → List raw.Pair
  | some v => rv ++ [⟨⟨tag, []⟩, ser v⟩]
  | none => rv

/-- `Input::get_pairs`: push each present typed field in the field
table's declaration order — non-witness UTXO, witness UTXO, partial
signatures, sighash type, redeem script, witness script, bip32
derivations, final script-sig, final witness, the four preimage maps —
then the proprietary entries, then the unknown entries, the keyed maps
in their key order. -/
def Input.get_pairs (i : Input) : List raw.Pair :=
  let rv : List raw.Pair := []
  let rv := pushOpt rv 0x00 serUnsignedTxValue i.non_witness_utxo
  let rv := pushOpt rv 0x01 serTxOut i.witness_utxo
  let rv := i.partial_sigs.foldl (fun rv kv => rv ++ [⟨⟨0x02, kv.1⟩, kv.2⟩]) rv
  let rv := pushOpt rv 0x03 u32LE i.sighash_type
  let rv := pushOpt rv 0x04 (fun v => v) i.redeem_script
  let rv := pushOpt rv 0x05 (fun v => v) i.witness_script
  let rv := i.bip32_derivation.foldl
    (fun rv kv => rv ++ [⟨⟨0x06, kv.1⟩, serKeySource kv.2⟩]) rv
  let rv := pushOpt rv 0x07 (fun v => v) i.final_script_sig
  let rv := pushOpt rv 0x08 serWitnessStack i.final_script_witness
  let rv := i.ripemd_preimages.foldl (fun rv kv => rv ++ [⟨⟨10, kv.1⟩, kv.2⟩]) rv
  let rv := i.sha256_preimages.foldl (fun rv kv => rv ++ [⟨⟨11, kv.1⟩, kv.2⟩]) rv
  let rv := i.hash160_preimages.foldl (fun rv kv => rv ++ [⟨⟨12, kv.1⟩, kv.2⟩]) rv
  let rv := i.hash256_preimages.foldl (fun rv kv => rv ++ [⟨⟨13, kv.1⟩, kv.2⟩]) rv
  let rv := i.proprietary.foldl (fun rv kv => rv ++ [⟨kv.1.to_key, kv.2⟩]) rv
  let rv := i.unknown.foldl (fun rv kv => rv ++ [⟨kv.1, kv.2⟩]) rv
  rv

/-- The generic map decode loop the `Input` codec macro instantiates
(modelled from the spec's decode state machine): start from the empty
map and insert each decoded pair until end-of-map. -/
def Input.consensus_decode (H : HashFns) (ps : List raw.Pair) : Except Err Input :=
  ps.foldlM (Input.insert_pair H) Input.default

/-- Merge for `Input`.  Modelled from the spec: take `other`'s
non-witness parent only when `self` has none; when `other` supplies a
witness-output descriptor and `self` has none, adopt it *and clear any
previously held non-witness parent*; union the keyed maps with `self`
winning on collision; fill scalar optional fields only when unset.
(The spec's policy table is silent on the sighash type and the four
preimage maps; the model extends it uniformly: scalar take-if-unset,
maps unioned.)  The trait reports errors, but no branch of the input
policy fails, so the model returns the merged map directly. -/
def Input.merge (self other : Input) : Input :=
  let nw := match self.non_witness_utxo with
    | some t => some t
    | none => other.non_witness_utxo
  let wnw : Option TxOut × Option Transaction :=
    match self.witness_utxo, other.witness_utxo with
    | none, some w => (some w, none)
    | sw, _ => (sw, nw)
  { non_witness_utxo := wnw.2
    witness_utxo := wnw.1
    partial_sigs := unionKeep bytesLt self.partial_sigs other.partial_sigs
    sighash_type := optKeep self.sighash_type other.sighash_type
    redeem_script := optKeep self.redeem_script other.redeem_script
    witness_script := optKeep self.witness_script other.witness_script
    bip32_derivation := unionKeep bytesLt self.bip32_derivation other.bip32_derivation
    final_script_sig := optKeep self.final_script_sig other.final_script_sig
    final_script_witness := optKeep self.final_script_witness other.final_script_witness
    ripemd_preimages := unionKeep bytesLt self.ripemd_preimages other.ripemd_preimages
    sha256_preimages := unionKeep bytesLt self.sha256_preimages other.sha256_preimages
    hash160_preimages := unionKeep bytesLt self.hash160_preimages other.hash160_preimages
    hash256_preimages := unionKeep bytesLt self.hash256_preimages other.hash256_preimages
    proprietary := unionKeep raw.propKeyLt self.proprietary other.proprietary
    unknown := unionKeep raw.keyLt self.unknown other.unknown }

/-! ## Occupancy and invariant predicates used by the claims -/

/-- The slot or map entry a raw pair targets in an `Input` is already
populated: the exact situation `insert_pair` must answer with
`DuplicateKey`.  For an unkeyed field the raw key must be the empty key
of that field and the slot filled; for a keyed field the key data must
parse as the field's key type and be bound in the map. -/
def Input.slotOccupied (i : Input) (k : raw.Key) : Bool :=
  if k.type_value = 0x00 then k.key.isEmpty && i.non_witness_utxo.isSome
  else if k.type_value = 0x01 then k.key.isEmpty && i.witness_utxo.isSome
  else if k.type_value = 0x02 then
    !k.key.isEmpty && (k.key.length = 33 || k.key.length = 65)
      && (alookup k.key i.partial_sigs).isSome
  else if k.type_value = 0x03 then k.key.isEmpty && i.sighash_type.isSome
  else if k.type_value = 0x04 then k.key.isEmpty && i.redeem_script.isSome
  else if k.type_value = 0x05 then k.key.isEmpty && i.witness_script.isSome
  else if k.type_value = 0x06 then
    !k.key.isEmpty && (k.key.length = 33 || k.key.length = 65)
      && (alookup k.key i.bip32_derivation).isSome
  else if k.type_value = 0x07 then k.key.isEmpty && i.final_script_sig.isSome
  else if k.type_value = 0x08 then k.key.isEmpty && i.final_script_witness.isSome
  else if k.type_value = 0xFC then
    match raw.ProprietaryKey.from_key k with
    | .ok pk => (alookup pk i.proprietary).isSome
    | .error _ => false
  else if k.type_value = 10 then
    k.key.length = 20 && (alookup k.key i.ripemd_preimages).isSome
  else if k.type_value = 11 then
    k.key.length = 32 && (alookup k.key i.sha256_preimages).isSome
  else if k.type_value = 12 then
    k.key.length = 20 && (alookup k.key i.hash160_preimages).isSome
  else if k.type_value = 13 then
    k.key.length = 32 && (alookup k.key i.hash256_preimages).isSome
  else (alookup k i.unknown).isSome

/-- The slot or map entry a raw pair targets in a `Global` is already
populated.  The unsigned-transaction slot is always populated (the
field is mandatory); the version field is excluded — it is not an
optional slot, and `Global::insert_pair` checks a per-call local in its
place, so the duplicate answer the other fields give does not apply to
it. -/
def Global.slotOccupied (g : Global) (k : raw.Key) : Bool :=
  if k.type_value = 0x00 then true
  else if k.type_value = 0x01 then
    !k.key.isEmpty && k.key.length = 78 && (alookup k.key g.xpub).isSome
  else if k.type_value = 0xFB then false
  else if k.type_value = 0xFC then
    match raw.ProprietaryKey.from_key k with
    | .ok pk => (alookup pk g.proprietary).isSome
    | .error _ => false
  else (alookup k g.unknown).isSome

/-- The unsigned-transaction invariant: every input carries an empty
signature script and an empty witness stack. -/
def txUnsigned (tx : Transaction) : Prop :=
  ∀ txin ∈ tx.input, txin.script_sig = [] ∧ txin.witness = []

instance (tx : Transaction) : Decidable (txUnsigned tx) :=
  inferInstanceAs
    (Decidable (∀ txin ∈ tx.input, txin.script_sig = [] ∧ txin.witness = []))

/-! ## Concrete fixtures for witnesses and counterexamples -/

/-- A minimal unsigned transaction: version 1, no inputs, no outputs. -/
def tx0 : Transaction := ⟨1, [], [], 0⟩

/-- The raw pair carrying `tx0` under the unsigned-transaction tag. -/
def txPair0 : raw.Pair := ⟨⟨0x00, []⟩, serUnsignedTxValue tx0⟩

/-- A `Global` holding `tx0` with version 1 set in memory. -/
def gRT : Global := ⟨tx0, [], 1, [], []⟩

/-- A 78-byte extended-public-key encoding used as xpub key data. -/
def xkey : Bytes := List.replicate 78 7

/-- A global xpub pair: `xkey` with a fingerprint-only value. -/
def xpair : raw.Pair := ⟨⟨0x01, xkey⟩, [0, 0, 0, 0]⟩

/-- A `Global` holding `tx0` and one xpub registry entry. -/
def gX : Global := ⟨tx0, [(xkey, ([0, 0, 0, 0], []))], 0, [], []⟩

/-- A global version pair carrying the value 7. -/
def vpair : raw.Pair := ⟨⟨0xFB, []⟩, [7, 0, 0, 0]⟩

/-- A `Global` holding `tx0` whose version slot has been set to 7. -/
def gV7 : Global := ⟨tx0, [], 7, [], []⟩

/-- Concrete hash functions instantiating the collaborator interface in
witnesses: each returns a fixed digest of the right width. -/
def hashFixed : HashFns :=
  ⟨fun _ => List.replicate 20 0, fun _ => List.replicate 32 0,
   fun _ => List.replicate 20 0, fun _ => List.replicate 32 0⟩

/-- An input map holding one partial signature by key `[2]`. -/
def inA : Input := { Input.default with partial_sigs := [([2], [1])] }

/-- An input map holding a conflicting partial signature by the same
key `[2]`. -/
def inB : Input := { Input.default with partial_sigs := [([2], [9])] }

/-- Three input maps with pairwise disjoint partial-signature keys. -/
def inP1 : Input := { Input.default with partial_sigs := [([1], [10])] }

/-- Second of the three disjoint signers. -/
def inP2 : Input := { Input.default with partial_sigs := [([2], [20])] }

/-- Third of the three disjoint signers. -/
def inP3 : Input := { Input.default with partial_sigs := [([3], [30])] }

/-- An input map holding only a non-witness parent transaction. -/
def inNW : Input := { Input.default with non_witness_utxo := some tx0 }

/-- An input map holding only a witness-output descriptor. -/
def inWU : Input := { Input.default with witness_utxo := some ⟨5, [6]⟩ }

/-- The emission of one optional field as a stand-alone segment: one
pair when the field is present, nothing when it is absent.  Used to
state the emission order of `get_pairs` extrinsically. -/
def optPairSeg {α : Type} (tag : Nat) (ser : α → Bytes) : Option α → List raw.Pair
  | some v => [⟨⟨tag, []⟩, ser v⟩]
  | none => []

/-- A raw pair under an unknown tag, for the decode-loop fixtures. -/
def upair : raw.Pair := ⟨⟨0x42, [1]⟩, [5]⟩

/-- A sighash-type pair carrying the recognized value 1. -/
def spair : raw.Pair := ⟨⟨0x03, []⟩, [1, 0, 0, 0]⟩

/-- A transaction whose single input already carries a signature
script. -/
def txBad : Transaction := ⟨1, [⟨⟨List.replicate 32 0, 0⟩, [1], 0, []⟩], [], 0⟩

/-! ## Order and association-list lemmas -/

/-- The byte order is irreflexive. -/
theorem bytesLt_irrefl (a : Bytes) : bytesLt a a = false := by
  induction a with
  | nil => rfl
  | cons x t ih => simp [bytesLt, ih]

/-- The byte order is asymmetric. -/
theorem bytesLt_asymm {a b : Bytes} (h : bytesLt a b = true) :
    bytesLt b a = false := by
  induction a generalizing b with
  | nil =>
    cases b with
    | nil => simp [bytesLt] at h
    | cons y s => simp [bytesLt]
  | cons x t ih =>
    cases b with
    | nil => simp [bytesLt] at h
    | cons y s =>
      simp only [bytesLt] at h ⊢
      split_ifs at h ⊢ with h1 h2 h3 <;> first | rfl | omega | exact ih h

/-- The byte order is transitive. -/
theorem bytesLt_trans {a b c : Bytes} (h₁ : bytesLt a b = true)
    (h₂ : bytesLt b c = true) : bytesLt a c = true := by
  induction a generalizing b c with
  | nil =>
    cases c with
    | nil =>
      cases b with
      | nil => exact h₁
      | cons y s => simp [bytesLt] at h₂
    | cons z u => simp [bytesLt]
  | cons x t ih =>
    cases b with
    | nil => simp [bytesLt] at h₁
    | cons y s =>
      cases c with
      | nil => simp [bytesLt] at h₂
      | cons z u =>
        simp only [bytesLt] at h₁ h₂ ⊢
        split_ifs at h₁ h₂ ⊢ <;> first | rfl | omega | exact ih h₁ h₂

/-- Two byte strings neither of which precedes the other are equal. -/
theorem bytesLt_eq_of_not_lt {a b : Bytes} (h₁ : bytesLt a b = false)
    (h₂ : bytesLt b a = false) : a = b := by
  induction a generalizing b with
  | nil =>
    cases b with
    | nil => rfl
    | cons y s => simp [bytesLt] at h₁
  | cons x t ih =>
    cases b with
    | nil => simp [bytesLt] at h₂
    | cons y s =>
      simp only [bytesLt] at h₁ h₂
      by_cases hxy : x < y
      · rw [if_pos hxy] at h₁; exact absurd h₁ (by simp)
      · by_cases hyx : y < x
        · rw [if_pos hyx] at h₂; exact absurd h₂ (by simp)
        · rw [if_neg hxy, if_neg hyx] at h₁
          rw [if_neg hyx, if_neg hxy] at h₂
          have hx : x = y := by omega
          rw [hx, ih h₁ h₂]

/-- A bound key looks up to something. -/
theorem alookup_isSome_of_mem {K V : Type} [DecidableEq K] {k : K} {v : V}
    {l : List (K × V)} (h : (k, v) ∈ l) : (alookup k l).isSome := by
  induction l with
  | nil => cases h
  | cons x t ih =>
    rcases List.mem_cons.mp h with h' | h'
    · cases h'; simp [alookup]
    · by_cases hk : k = x.1 <;> simp [alookup, hk, ih h']

/-- A successful lookup names a bound entry. -/
theorem mem_of_alookup {K V : Type} [DecidableEq K] {k : K} {v : V}
    {l : List (K × V)} (h : alookup k l = some v) : (k, v) ∈ l := by
  induction l with
  | nil => simp [alookup] at h
  | cons x t ih =>
    rcases x with ⟨k', v'⟩
    by_cases hk : k = k'
    · subst hk
      simp [alookup] at h
      rw [← h]
      exact List.mem_cons_self ..
    · simp only [alookup, if_neg hk] at h
      exact List.mem_cons_of_mem _ (ih h)

/-- Lookup after a sorted insert: the inserted key reads back, others
are untouched. -/
theorem alookup_sortedInsert {K V : Type} [DecidableEq K]
    (lt : K → K → Bool) (k k' : K) (v : V) (l : List (K × V)) :
    alookup k (sortedInsert lt k' v l) =
      if k = k' then some v else alookup k l := by
  induction l with
  | nil => by_cases h : k = k' <;> simp [sortedInsert, alookup, h]
  | cons x t ih =>
    rcases x with ⟨kx, vx⟩
    by_cases h1 : lt k' kx
    · simp only [sortedInsert, if_pos h1]
      by_cases hk : k = k' <;> simp [alookup, hk]
    · by_cases h2 : k' = kx
      · simp only [sortedInsert, if_neg h1, if_pos h2]
        by_cases hk : k = k'
        · simp [alookup, hk]
        · have hx : k ≠ kx := fun he => hk (by rw [he, ← h2])
          simp [alookup, hk, hx]
      · simp only [sortedInsert, if_neg h1, if_neg h2]
        by_cases hx : k = kx
        · subst hx
          have hk : k ≠ k' := fun he => h2 (by rw [← he])
          simp [alookup, hk]
        · simp [alookup, hx, ih]

/-- Lookup in a kept-union: `self`'s binding wins, `other` fills the
gaps. -/
theorem alookup_unionKeep {K V : Type} [DecidableEq K]
    (lt : K → K → Bool) (k : K) (a b : List (K × V)) :
    alookup k (unionKeep lt a b) = optKeep (alookup k a) (alookup k b) := by
  induction b generalizing a with
  | nil =>
    show alookup k a = optKeep (alookup k a) (alookup k ([] : List (K × V)))
    cases h : alookup k a <;> simp [alookup, optKeep, h]
  | cons x t ih =>
    rcases x with ⟨kx, vx⟩
    have step : unionKeep lt a ((kx, vx) :: t) =
        unionKeep lt
          (if (alookup kx a).isSome then a else sortedInsert lt kx vx a) t := by
      simp [unionKeep, List.foldl_cons]
    rw [step]
    split_ifs with hocc
    · rw [ih]
      by_cases hk : k = kx
      · subst hk
        rcases Option.isSome_iff_exists.mp hocc with ⟨w, hw⟩
        simp [alookup, hw, optKeep]
      · simp [alookup, hk]
    · rw [ih, alookup_sortedInsert]
      by_cases hk : k = kx
      · subst hk
        have hnone : alookup k a = none := Option.not_isSome_iff_eq_none.mp hocc
        simp [alookup, hnone, optKeep]
      · simp [alookup, hk]

/-- Folding a map over itself changes nothing: every key is already
bound, so every insertion is skipped. -/
theorem unionKeep_self {K V : Type} [DecidableEq K] (lt : K → K → Bool)
    (l : List (K × V)) : unionKeep lt l l = l := by
  have h : ∀ m l' : List (K × V), (∀ kv ∈ l', (alookup kv.1 m).isSome) →
      List.foldl
        (fun m kv => if (alookup kv.1 m).isSome then m else sortedInsert lt kv.1 kv.2 m)
        m l' = m := by
    intro m l' hall
    induction l' with
    | nil => rfl
    | cons x t ih =>
      have hx := hall x (List.mem_cons_self ..)
      simp only [List.foldl_cons, if_pos hx]
      exact ih (fun kv hkv => hall kv (List.mem_cons_of_mem _ hkv))
  exact h l l (fun kv hkv => alookup_isSome_of_mem (by exact hkv))

/-- A key below every key of a map is unbound in it. -/
theorem alookup_eq_none_of_forall_lt {K V : Type} [DecidableEq K]
    {lt : K → K → Bool} (hirr : ∀ x, lt x x = false) {k : K}
    {l : List (K × V)} (h : ∀ kv ∈ l, lt k kv.1 = true) :
    alookup k l = none := by
  cases hl : alookup k l with
  | none => rfl
  | some v =>
    have hm := mem_of_alookup hl
    have := h (k, v) hm
    rw [hirr k] at this
    cases this

/-- Membership after a sorted insert: the new entry or an old one. -/
theorem mem_sortedInsert {K V : Type} [DecidableEq K] {lt : K → K → Bool}
    {k : K} {v : V} {kv : K × V} {l : List (K × V)}
    (h : kv ∈ sortedInsert lt k v l) : kv = (k, v) ∨ kv ∈ l := by
  induction l with
  | nil =>
    simp [sortedInsert] at h
    exact Or.inl h
  | cons x t ih =>
    by_cases h1 : lt k x.1
    · simp only [sortedInsert, if_pos h1] at h
      rcases List.mem_cons.mp h with he | hm
      · exact Or.inl he
      · exact Or.inr hm
    · by_cases h2 : k = x.1
      · simp only [sortedInsert, if_neg h1, if_pos h2] at h
        rcases List.mem_cons.mp h with he | hm
        · exact Or.inl he
        · exact Or.inr (List.mem_cons_of_mem _ hm)
      · simp only [sortedInsert, if_neg h1, if_neg h2] at h
        rcases List.mem_cons.mp h with he | hm
        · exact Or.inr (he ▸ List.mem_cons_self ..)
        · rcases ih hm with hnew | hold
          · exact Or.inl hnew
          · exact Or.inr (List.mem_cons_of_mem _ hold)

/-- Sorted insert preserves sortedness, for a transitive order that is
total on distinct keys. -/
theorem mapSorted_sortedInsert {K V : Type} [DecidableEq K]
    {lt : K → K → Bool}
    (htr : ∀ x y z, lt x y = true → lt y z = true → lt x z = true)
    (htot : ∀ x y, lt x y = false → lt y x = false → x = y)
    (k : K) (v : V) {l : List (K × V)} (hs : MapSorted lt l) :
    MapSorted lt (sortedInsert lt k v l) := by
  induction l with
  | nil => simp [sortedInsert, MapSorted]
  | cons x t ih =>
    rcases x with ⟨kx, vx⟩
    rcases (List.pairwise_cons.mp hs) with ⟨hhead, htail⟩
    by_cases h1 : lt k kx
    · simp only [sortedInsert, if_pos h1]
      refine List.pairwise_cons.mpr ⟨?_, hs⟩
      intro kv hkv
      rcases List.mem_cons.mp hkv with he | hm
      · rw [he]; exact h1
      · exact htr _ _ _ h1 (hhead kv hm)
    · by_cases h2 : k = kx
      · simp only [sortedInsert, if_neg h1, if_pos h2]
        refine List.pairwise_cons.mpr ⟨?_, htail⟩
        intro kv hkv
        rw [h2]
        exact hhead kv hkv
      · simp only [sortedInsert, if_neg h1, if_neg h2]
        refine List.pairwise_cons.mpr ⟨?_, ih htail⟩
        intro kv hkv
        have hkxk : lt kx k = true := by
          cases hlt : lt kx k with
          | true => rfl
          | false => exact absurd (htot _ _ (by simpa using h1) hlt) h2
        rcases mem_sortedInsert hkv with hnew | hold
        · rw [hnew]
          exact hkxk
        · exact hhead kv hold

/-- Two sorted maps with the same lookup function are the same list. -/
theorem mapSorted_ext {K V : Type} [DecidableEq K] {lt : K → K → Bool}
    (hirr : ∀ x, lt x x = false)
    (hasym : ∀ x y, lt x y = true → lt y x = false)
    {l₁ l₂ : List (K × V)} (hs₁ : MapSorted lt l₁) (hs₂ : MapSorted lt l₂)
    (h : ∀ k, alookup k l₁ = alookup k l₂) : l₁ = l₂ := by
  induction l₁ generalizing l₂ with
  | nil =>
    cases l₂ with
    | nil => rfl
    | cons y s =>
      have := h y.1
      simp [alookup] at this
  | cons x t ih =>
    cases l₂ with
    | nil =>
      have := h x.1
      simp [alookup] at this
    | cons y s =>
      rcases x with ⟨kx, vx⟩
      rcases y with ⟨ky, vy⟩
      rcases List.pairwise_cons.mp hs₁ with ⟨hh₁, ht₁⟩
      rcases List.pairwise_cons.mp hs₂ with ⟨hh₂, ht₂⟩
      have hkeq : kx = ky := by
        by_cases hk : kx = ky
        · exact hk
        · have h₁ := h kx
          have h₂ := h ky
          simp only [alookup, if_pos rfl] at h₁ h₂
          rw [if_neg (fun he => hk he)] at h₁
          rw [if_neg (fun he => hk he.symm)] at h₂
          have hm₁ := mem_of_alookup h₁.symm
          have hm₂ := mem_of_alookup h₂
          have hlt₁ := hh₂ _ hm₁
          have hlt₂ := hh₁ _ hm₂
          rw [hasym _ _ hlt₁] at hlt₂
          cases hlt₂
      subst hkeq
      have hveq : vx = vy := by
        have h₁ := h kx
        simpa [alookup] using h₁
      subst hveq
      have htl : ∀ k, alookup k t = alookup k s := by
        intro k
        by_cases hk : k = kx
        · subst hk
          rw [alookup_eq_none_of_forall_lt hirr hh₁,
              alookup_eq_none_of_forall_lt hirr hh₂]
        · have := h k
          simpa [alookup, if_neg hk] using this
      rw [ih ht₁ ht₂ htl]

/-- A kept-union of a sorted map is sorted. -/
theorem mapSorted_unionKeep {K V : Type} [DecidableEq K] {lt : K → K → Bool}
    (htr : ∀ x y z, lt x y = true → lt y z = true → lt x z = true)
    (htot : ∀ x y, lt x y = false → lt y x = false → x = y)
    {a : List (K × V)} (b : List (K × V)) (hs : MapSorted lt a) :
    MapSorted lt (unionKeep lt a b) := by
  induction b generalizing a with
  | nil => exact hs
  | cons x t ih =>
    have step : unionKeep lt a (x :: t) =
        unionKeep lt
          (if (alookup x.1 a).isSome then a else sortedInsert lt x.1 x.2 a) t := by
      simp [unionKeep, List.foldl_cons]
    rw [step]
    split_ifs with hocc
    · exact ih hs
    · exact ih (mapSorted_sortedInsert htr htot _ _ hs)

/-- A push loop is an append of the mapped list: the shape of every
`get_pairs` emission loop. -/
theorem foldl_push_eq_append {α β : Type} (f : α → β) (l : List α) (acc : List β) :
    l.foldl (fun rv kv => rv ++ [f kv]) acc = acc ++ l.map f := by
  induction l generalizing acc with
  | nil => simp
  | cons x t ih => simp [List.foldl_cons, ih]

/-- Inserting into an unkeyed slot a second time is the duplicate-key
error. -/
theorem insertUnkeyed_dup {α : Type} {k : raw.Key} {val : Bytes}
    {slot : Option α} {des : Bytes → Except Err α} {s : Option α}
    (val₂ : Bytes) (h : insertUnkeyed k val slot des = .ok s) :
    insertUnkeyed k val₂ s des = .error (.DuplicateKey k) := by
  unfold insertUnkeyed at h ⊢
  by_cases hk : k.key = []
  · rw [if_pos hk] at h ⊢
    cases slot with
    | some v => exact absurd h (by simp)
    | none =>
      cases hdes : des val with
      | error e => simp [hdes, bind, Except.bind] at h
      | ok v =>
        simp only [hdes, bind, Except.bind, pure, Except.pure,
          Except.ok.injEq] at h
        rw [← h]
  · rw [if_neg hk] at h
    exact absurd h (by simp)

/-- Inserting into a keyed map slot a second time with the same raw key
is the duplicate-key error. -/
theorem insertKeyed_dup {K V : Type} [DecidableEq K] {lt : K → K → Bool}
    {k : raw.Key} {val : Bytes} {m m' : List (K × V)}
    {desK : Bytes → Except Err K} {desV : Bytes → Except Err V}
    (val₂ : Bytes) (h : insertKeyed lt k val m desK desV = .ok m') :
    insertKeyed lt k val₂ m' desK desV = .error (.DuplicateKey k) := by
  unfold insertKeyed at h ⊢
  by_cases hk : k.key = []
  · rw [if_pos hk] at h
    exact absurd h (by simp)
  · rw [if_neg hk] at h ⊢
    cases hdes : desK k.key with
    | error e => simp [hdes, bind, Except.bind] at h
    | ok kv =>
      simp only [hdes, bind, Except.bind] at h ⊢
      cases hl : alookup kv m with
      | some w => simp [hl] at h
      | none =>
        rw [hl] at h
        cases hv : desV val with
        | error e => simp [hv, bind, Except.bind] at h
        | ok v =>
          simp only [hv, bind, Except.bind, pure, Except.pure,
            Except.ok.injEq] at h
          have hl' : alookup kv m' = some v := by
            rw [← h, alookup_sortedInsert]
            simp
          simp [hl']

/-- Inserting a hash-preimage pair a second time with the same raw key
is the duplicate-key error (the occupancy check precedes the preimage
check). -/
theorem insertHashKeyed_dup {h : Bytes → Bytes} {ctor : Bytes → PsbtHash}
    {width : Nat} {k : raw.Key} {val : Bytes} {m m' : List (Bytes × Bytes)}
    (val₂ : Bytes) (hins : insertHashKeyed h ctor width k val m = .ok m') :
    insertHashKeyed h ctor width k val₂ m' = .error (.DuplicateKey k) := by
  unfold insertHashKeyed at hins ⊢
  by_cases hk : k.key = []
  · rw [if_pos hk] at hins
    exact absurd hins (by simp)
  · rw [if_neg hk] at hins ⊢
    cases hdes : desDigest width k.key with
    | error e => simp [hdes, bind, Except.bind] at hins
    | ok d =>
      simp only [hdes, bind, Except.bind] at hins ⊢
      cases hl : alookup d m with
      | some w => simp [hl] at hins
      | none =>
        rw [hl] at hins
        simp only [desBytes, bind, Except.bind, pure, Except.pure] at hins
        by_cases hh : h val = d
        · rw [if_pos hh] at hins
          simp only [Except.ok.injEq] at hins
          have hl' : alookup d m' = some val := by
            rw [← hins, alookup_sortedInsert]
            simp
          simp [hl']
        · rw [if_neg hh] at hins
          exact absurd hins (by simp)

/-- Inserting a proprietary pair a second time with the same raw key is
the duplicate-key error. -/
theorem insertProprietary_dup {k : raw.Key} {val : Bytes}
    {m m' : List (raw.ProprietaryKey × Bytes)}
    (val₂ : Bytes) (h : insertProprietary k val m = .ok m') :
    insertProprietary k val₂ m' = .error (.DuplicateKey k) := by
  unfold insertProprietary at h ⊢
  cases hdes : raw.ProprietaryKey.from_key k with
  | error e => simp [hdes, bind, Except.bind] at h
  | ok pk =>
    simp only [hdes, bind, Except.bind] at h ⊢
    cases hl : alookup pk m with
    | some w => simp [hl] at h
    | none =>
      rw [hl] at h
      simp only [pure, Except.pure, Except.ok.injEq] at h
      have hl' : alookup pk m' = some val := by
        rw [← h, alookup_sortedInsert]
        simp
      simp [hl']

/-- Inserting an unknown pair a second time with the same raw key is
the duplicate-key error. -/
theorem insertUnknown_dup {k : raw.Key} {val : Bytes}
    {m m' : List (raw.Key × Bytes)} (val₂ : Bytes) (h : insertUnknown k val m = .ok m') :
    insertUnknown k val₂ m' = .error (.DuplicateKey k) := by
  unfold insertUnknown at h ⊢
  cases hl : alookup k m with
  | some w => simp [hl] at h
  | none =>
    rw [hl] at h
    simp only [Except.ok.injEq] at h
    have hl' : alookup k m' = some val := by
      rw [← h, alookup_sortedInsert]
      simp
    simp [hl']

/-- Replaying a pair the Global decode loop has accepted: every tag
other than the xpub registry's answers with the duplicate-key error
carrying the pair's key. -/
theorem globalStep_dup {s s' : GlobalDecodeState} {p : raw.Pair}
    (hne : p.key.type_value ≠ 0x01) (h : globalStep s p = .ok s') :
    globalStep s' p = .error (.DuplicateKey p.key) := by
  unfold globalStep at h ⊢
  by_cases h0 : p.key.type_value = 0x00
  · rw [if_pos h0] at h ⊢
    by_cases hk : p.key.key = []
    · rw [if_pos hk] at h ⊢
      cases hs : s.tx with
      | some t => simp [hs] at h
      | none =>
        rw [hs] at h
        cases hr : readUnsignedTx p.value with
        | none => simp [hr] at h
        | some pr =>
          rcases pr with ⟨tx, rest⟩
          rw [hr] at h
          by_cases hrest : rest = []
          · simp only [if_pos hrest, Except.ok.injEq] at h
            rw [← h]
          · simp [if_neg hrest] at h
    · rw [if_neg hk] at h
      exact absurd h (by simp)
  · rw [if_neg h0] at h ⊢
    by_cases hb : p.key.type_value = 0xFB
    · rw [if_pos hb] at h ⊢
      by_cases hk : p.key.key = []
      · rw [if_pos hk] at h ⊢
        cases hs : s.version with
        | some t => simp [hs] at h
        | none =>
          rw [hs] at h
          by_cases hlen : p.value.length ≠ 4
          · simp [if_pos hlen] at h
          · rw [if_neg hlen] at h
            cases hr : readU32LE p.value with
            | none => simp [hr] at h
            | some pr =>
              rcases pr with ⟨n, rest⟩
              rw [hr] at h
              by_cases hrest : rest = []
              · simp only [if_pos hrest, Except.ok.injEq] at h
                rw [← h]
              · simp [if_neg hrest] at h
      · rw [if_neg hk] at h
        exact absurd h (by simp)
    · rw [if_neg hb] at h ⊢
      rw [if_neg hne] at h ⊢
      by_cases hc : p.key.type_value = 0xFC
      · rw [if_pos hc] at h ⊢
        cases hm : insertProprietary p.key p.value s.proprietary with
        | error e => simp [hm, bind, Except.bind] at h
        | ok m =>
          simp only [hm, bind, Except.bind, pure, Except.pure,
            Except.ok.injEq] at h
          have hdup := insertProprietary_dup p.value hm
          rw [← h]
          simp [hdup, bind, Except.bind]
      · rw [if_neg hc] at h ⊢
        cases hm : insertUnknown p.key p.value s.unknowns with
        | error e => simp [hm, bind, Except.bind] at h
        | ok m =>
          simp only [hm, bind, Except.bind, pure, Except.pure,
            Except.ok.injEq] at h
          have hdup := insertUnknown_dup p.value hm
          rw [← h]
          simp [hdup, bind, Except.bind]

/-- Replaying an accepted xpub pair: the Global decode loop answers
with the parse-failed error naming the repeated xpub, not with
`DuplicateKey`. -/
theorem globalStep_xpub_dup {s s' : GlobalDecodeState} {p : raw.Pair}
    (he : p.key.type_value = 0x01) (h : globalStep s p = .ok s') :
    globalStep s' p = .error (.ParseFailed "Repeated global xpub key") := by
  unfold globalStep at h ⊢
  rw [if_neg (by rw [he]; decide), if_neg (by rw [he]; decide), if_pos he] at h ⊢
  by_cases hk : p.key.key ≠ []
  · rw [if_pos hk] at h ⊢
    cases hx : xpubKeyParse p.key.key with
    | error e => simp [hx, bind, Except.bind] at h
    | ok xpub =>
      simp only [hx, bind, Except.bind] at h ⊢
      cases hv : readXpubValue p.value with
      | error e => simp [hv] at h
      | ok ks =>
        simp only [hv] at h ⊢
        cases hm : xpubInsert xpub ks s.xpub_map with
        | error e => simp [hm] at h
        | ok m =>
          simp only [hm, pure, Except.pure, Except.ok.injEq] at h
          have hl' : alookup xpub s'.xpub_map = some ks := by
            unfold xpubInsert at hm
            cases hl : alookup xpub s.xpub_map with
            | some w => simp [hl] at hm
            | none =>
              rw [hl] at hm
              simp only [Except.ok.injEq] at hm
              rw [← h]
              show alookup xpub m = some ks
              rw [← hm, alookup_sortedInsert]
              simp
          unfold xpubInsert
          rw [hl']
  · rw [if_neg hk] at h
    exact absurd h (by simp)

/-- A step on any tag other than the unsigned transaction's leaves the
accumulated transaction untouched. -/
theorem globalStep_tx_of_ne {s s' : GlobalDecodeState} {p : raw.Pair}
    (hne : p.key.type_value ≠ 0x00) (h : globalStep s p = .ok s') :
    s'.tx = s.tx := by
  unfold globalStep at h
  rw [if_neg hne] at h
  by_cases hb : p.key.type_value = 0xFB
  · rw [if_pos hb] at h
    by_cases hk : p.key.key = []
    · rw [if_pos hk] at h
      cases hs : s.version with
      | some t => simp [hs] at h
      | none =>
        rw [hs] at h
        by_cases hlen : p.value.length ≠ 4
        · simp [if_pos hlen] at h
        · rw [if_neg hlen] at h
          cases hr : readU32LE p.value with
          | none => simp [hr] at h
          | some pr =>
            rcases pr with ⟨n, rest⟩
            rw [hr] at h
            by_cases hrest : rest = []
            · simp only [if_pos hrest, Except.ok.injEq] at h
              rw [← h]
            · simp [if_neg hrest] at h
    · rw [if_neg hk] at h
      exact absurd h (by simp)
  · rw [if_neg hb] at h
    by_cases h1 : p.key.type_value = 0x01
    · rw [if_pos h1] at h
      by_cases hk : p.key.key ≠ []
      · rw [if_pos hk] at h
        cases hx : xpubKeyParse p.key.key with
        | error e => simp [hx, bind, Except.bind] at h
        | ok xpub =>
          simp only [hx, bind, Except.bind] at h
          cases hv : readXpubValue p.value with
          | error e => simp [hv] at h
          | ok ks =>
            simp only [hv] at h
            cases hm : xpubInsert xpub ks s.xpub_map with
            | error e => simp [hm] at h
            | ok m =>
              simp only [hm, pure, Except.pure, Except.ok.injEq] at h
              rw [← h]
      · rw [if_neg hk] at h
        exact absurd h (by simp)
    · rw [if_neg h1] at h
      by_cases hc : p.key.type_value = 0xFC
      · rw [if_pos hc] at h
        cases hm : insertProprietary p.key p.value s.proprietary with
        | error e => simp [hm, bind, Except.bind] at h
        | ok m =>
          simp only [hm, bind, Except.bind, pure, Except.pure,
            Except.ok.injEq] at h
          rw [← h]
      · rw [if_neg hc] at h
        cases hm : insertUnknown p.key p.value s.unknowns with
        | error e => simp [hm, bind, Except.bind] at h
        | ok m =>
          simp only [hm, bind, Except.bind, pure, Except.pure,
            Except.ok.injEq] at h
          rw [← h]

/-- Folding the Global pair loop over pairs none of which carries the
unsigned-transaction tag leaves the transaction slot empty. -/
theorem globalFold_tx_none {ps : List raw.Pair} {s₀ s : GlobalDecodeState}
    (hall : ∀ p ∈ ps, p.key.type_value ≠ 0x00)
    (h : ps.foldlM globalStep s₀ = .ok s) : s.tx = s₀.tx := by
  induction ps generalizing s₀ with
  | nil =>
    simp only [List.foldlM_nil, pure, Except.pure, Except.ok.injEq] at h
    rw [← h]
  | cons p t ih =>
    simp only [List.foldlM_cons] at h
    cases hst : globalStep s₀ p with
    | error e => simp [hst, bind, Except.bind] at h
    | ok s₁ =>
      rw [hst] at h
      simp only [bind, Except.bind] at h
      have ht := ih (fun q hq => hall q (List.mem_cons_of_mem _ hq)) h
      rw [ht, globalStep_tx_of_ne (hall p (List.mem_cons_self ..)) hst]

/-- Replaying a pair an `Input` map has accepted is the duplicate-key
error carrying the pair's key, whatever the field tag. -/
theorem input_insert_dup {H : HashFns} {i i' : Input} {p : raw.Pair}
    (h : Input.insert_pair H i p = .ok i') :
    Input.insert_pair H i' p = .error (.DuplicateKey p.key) := by
  unfold Input.insert_pair at h ⊢
  by_cases h0 : p.key.type_value = 0x00
  · rw [if_pos h0] at h ⊢
    cases hs : insertUnkeyed p.key p.value i.non_witness_utxo desTransaction with
    | error e => simp [hs, bind, Except.bind] at h
    | ok sl =>
      simp only [hs, bind, Except.bind, pure, Except.pure, Except.ok.injEq] at h
      rw [← h]
      simp [insertUnkeyed_dup p.value hs, bind, Except.bind]
  · rw [if_neg h0] at h ⊢
    by_cases h1 : p.key.type_value = 0x01
    · rw [if_pos h1] at h ⊢
      cases hs : insertUnkeyed p.key p.value i.witness_utxo desTxOut with
      | error e => simp [hs, bind, Except.bind] at h
      | ok sl =>
        simp only [hs, bind, Except.bind, pure, Except.pure, Except.ok.injEq] at h
        rw [← h]
        simp [insertUnkeyed_dup p.value hs, bind, Except.bind]
    · rw [if_neg h1] at h ⊢
      by_cases h2 : p.key.type_value = 0x02
      · rw [if_pos h2] at h ⊢
        cases hs : insertKeyed bytesLt p.key p.value i.partial_sigs desPubKey desBytes with
        | error e => simp [hs, bind, Except.bind] at h
        | ok m =>
          simp only [hs, bind, Except.bind, pure, Except.pure, Except.ok.injEq] at h
          rw [← h]
          simp [insertKeyed_dup p.value hs, bind, Except.bind]
      · rw [if_neg h2] at h ⊢
        by_cases h3 : p.key.type_value = 0x03
        · rw [if_pos h3] at h ⊢
          cases hs : insertUnkeyed p.key p.value i.sighash_type desSigHashType with
          | error e => simp [hs, bind, Except.bind] at h
          | ok sl =>
            simp only [hs, bind, Except.bind, pure, Except.pure, Except.ok.injEq] at h
            rw [← h]
            simp [insertUnkeyed_dup p.value hs, bind, Except.bind]
        · rw [if_neg h3] at h ⊢
          by_cases h4 : p.key.type_value = 0x04
          · rw [if_pos h4] at h ⊢
            cases hs : insertUnkeyed p.key p.value i.redeem_script desScript with
            | error e => simp [hs, bind, Except.bind] at h
            | ok sl =>
              simp only [hs, bind, Except.bind, pure, Except.pure, Except.ok.injEq] at h
              rw [← h]
              simp [insertUnkeyed_dup p.value hs, bind, Except.bind]
          · rw [if_neg h4] at h ⊢
            by_cases h5 : p.key.type_value = 0x05
            · rw [if_pos h5] at h ⊢
              cases hs : insertUnkeyed p.key p.value i.witness_script desScript with
              | error e => simp [hs, bind, Except.bind] at h
              | ok sl =>
                simp only [hs, bind, Except.bind, pure, Except.pure, Except.ok.injEq] at h
                rw [← h]
                simp [insertUnkeyed_dup p.value hs, bind, Except.bind]
            · rw [if_neg h5] at h ⊢
              by_cases h6 : p.key.type_value = 0x06
              · rw [if_pos h6] at h ⊢
                cases hs : insertKeyed bytesLt p.key p.value i.bip32_derivation desPubKey desKeySource with
                | error e => simp [hs, bind, Except.bind] at h
                | ok m =>
                  simp only [hs, bind, Except.bind, pure, Except.pure, Except.ok.injEq] at h
                  rw [← h]
                  simp [insertKeyed_dup p.value hs, bind, Except.bind]
              · rw [if_neg h6] at h ⊢
                by_cases h7 : p.key.type_value = 0x07
                · rw [if_pos h7] at h ⊢
                  cases hs : insertUnkeyed p.key p.value i.final_script_sig desScript with
                  | error e => simp [hs, bind, Except.bind] at h
                  | ok sl =>
                    simp only [hs, bind, Except.bind, pure, Except.pure, Except.ok.injEq] at h
                    rw [← h]
                    simp [insertUnkeyed_dup p.value hs, bind, Except.bind]
                · rw [if_neg h7] at h ⊢
                  by_cases h8 : p.key.type_value = 0x08
                  · rw [if_pos h8] at h ⊢
                    cases hs : insertUnkeyed p.key p.value i.final_script_witness desWitnessStack with
                    | error e => simp [hs, bind, Except.bind] at h
                    | ok sl =>
                      simp only [hs, bind, Except.bind, pure, Except.pure, Except.ok.injEq] at h
                      rw [← h]
                      simp [insertUnkeyed_dup p.value hs, bind, Except.bind]
                  · rw [if_neg h8] at h ⊢
                    by_cases hc : p.key.type_value = 0xFC
                    · rw [if_pos hc] at h ⊢
                      cases hs : insertProprietary p.key p.value i.proprietary with
                      | error e => simp [hs, bind, Except.bind] at h
                      | ok m =>
                        simp only [hs, bind, Except.bind, pure, Except.pure, Except.ok.injEq] at h
                        rw [← h]
                        simp [insertProprietary_dup p.value hs, bind, Except.bind]
                    · rw [if_neg hc] at h ⊢
                      by_cases h10 : p.key.type_value = 10
                      · rw [if_pos h10] at h ⊢
                        cases hs : insertHashKeyed H.ripemd160 PsbtHash.Ripemd160 20 p.key p.value i.ripemd_preimages with
                        | error e => simp [hs, bind, Except.bind] at h
                        | ok m =>
                          simp only [hs, bind, Except.bind, pure, Except.pure, Except.ok.injEq] at h
                          rw [← h]
                          simp [insertHashKeyed_dup p.value hs, bind, Except.bind]
                      · rw [if_neg h10] at h ⊢
                        by_cases h11 : p.key.type_value = 11
                        · rw [if_pos h11] at h ⊢
                          cases hs : insertHashKeyed H.sha256 PsbtHash.Sha256 32 p.key p.value i.sha256_preimages with
                          | error e => simp [hs, bind, Except.bind] at h
                          | ok m =>
                            simp only [hs, bind, Except.bind, pure, Except.pure, Except.ok.injEq] at h
                            rw [← h]
                            simp [insertHashKeyed_dup p.value hs, bind, Except.bind]
                        · rw [if_neg h11] at h ⊢
                          by_cases h12 : p.key.type_value = 12
                          · rw [if_pos h12] at h ⊢
                            cases hs : insertHashKeyed H.hash160 PsbtHash.Hash160 20 p.key p.value i.hash160_preimages with
                            | error e => simp [hs, bind, Except.bind] at h
                            | ok m =>
                              simp only [hs, bind, Except.bind, pure, Except.pure, Except.ok.injEq] at h
                              rw [← h]
                              simp [insertHashKeyed_dup p.value hs, bind, Except.bind]
                          · rw [if_neg h12] at h ⊢
                            by_cases h13 : p.key.type_value = 13
                            · rw [if_pos h13] at h ⊢
                              cases hs : insertHashKeyed H.sha256d PsbtHash.Hash256 32 p.key p.value i.hash256_preimages with
                              | error e => simp [hs, bind, Except.bind] at h
                              | ok m =>
                                simp only [hs, bind, Except.bind, pure, Except.pure, Except.ok.injEq] at h
                                rw [← h]
                                simp [insertHashKeyed_dup p.value hs, bind, Except.bind]
                            · rw [if_neg h13] at h ⊢
                              cases hs : insertUnknown p.key p.value i.unknown with
                              | error e => simp [hs, bind, Except.bind] at h
                              | ok m =>
                                simp only [hs, bind, Except.bind, pure, Except.pure, Except.ok.injEq] at h
                                rw [← h]
                                simp [insertUnknown_dup p.value hs, bind, Except.bind]

/-- Keeping `self` over itself changes nothing. -/
theorem optKeep_self {α : Type} (o : Option α) : optKeep o o = o := by
  cases o <;> rfl

/-- The unsigned-input walk accepts exactly the transactions whose
inputs all carry empty spend proof. -/
theorem checkUnsignedInputs_eq_none_iff (l : List TxIn) :
    checkUnsignedInputs l = none ↔ ∀ txin ∈ l, txin.script_sig = [] ∧ txin.witness = [] := by
  induction l with
  | nil => simp [checkUnsignedInputs]
  | cons x t ih =>
    by_cases hs : x.script_sig ≠ []
    · simp [checkUnsignedInputs, hs]
    · by_cases hw : x.witness ≠ []
      · simp [checkUnsignedInputs, hs, hw]
      · simp only [not_not] at hs hw
        simp [checkUnsignedInputs, hs, hw, ih]

/-- The unsigned-input walk only ever reports one of the two
construction errors. -/
theorem checkUnsignedInputs_some (l : List TxIn) (e : Err)
    (h : checkUnsignedInputs l = some e) :
    e = .UnsignedTxHasScriptSigs ∨ e = .UnsignedTxHasScriptWitnesses := by
  induction l with
  | nil => simp [checkUnsignedInputs] at h
  | cons x t ih =>
    by_cases hs : x.script_sig ≠ []
    · simp only [checkUnsignedInputs, if_pos hs, Option.some.injEq] at h
      exact Or.inl h.symm
    · by_cases hw : x.witness ≠ []
      · simp only [checkUnsignedInputs, if_neg hs, if_pos hw, Option.some.injEq] at h
        exact Or.inr h.symm
      · simp only [checkUnsignedInputs, if_neg hs, if_neg hw] at h
        exact ih h

/-- Key-disjointness read at one key: a key bound on the left is
unbound on the right. -/
theorem keysDisjoint_lookup {K V : Type} [DecidableEq K]
    {l₁ l₂ : List (K × V)} (h : keysDisjoint l₁ l₂ = true) {k : K} {v : V}
    (hl : alookup k l₁ = some v) : alookup k l₂ = none := by
  have hall := List.all_eq_true.mp h
  have hm := mem_of_alookup hl
  have := hall _ hm
  simpa [Option.isNone_iff_eq_none] using this

/-- Folding three pairwise-exclusive options in any order keeps the one
that is set. -/
theorem optKeep3_comm {α : Type} {oa ob oc : Option α}
    (hab : oa = none ∨ ob = none) (hac : oa = none ∨ oc = none)
    (hbc : ob = none ∨ oc = none) :
    optKeep (optKeep oa ob) oc = optKeep (optKeep oa oc) ob ∧
    optKeep (optKeep oa ob) oc = optKeep (optKeep ob oa) oc ∧
    optKeep (optKeep oa ob) oc = optKeep (optKeep ob oc) oa ∧
    optKeep (optKeep oa ob) oc = optKeep (optKeep oc oa) ob ∧
    optKeep (optKeep oa ob) oc = optKeep (optKeep oc ob) oa := by
  rcases oa with _ | va <;> rcases ob with _ | vb <;> rcases oc with _ | vc <;>
    simp_all [optKeep]

/-- An unkeyed slot that is already filled answers a matching pair with
the duplicate-key error. -/
theorem insertUnkeyed_occupied {α : Type} {k : raw.Key} {val : Bytes} {v : α}
    {des : Bytes → Except Err α} (hk : k.key = []) :
    insertUnkeyed k val (some v) des = .error (.DuplicateKey k) := by
  unfold insertUnkeyed
  rw [if_pos hk]

/-- A keyed map whose entry is already bound answers a matching pair
with the duplicate-key error. -/
theorem insertKeyed_occupied {K V : Type} [DecidableEq K] {lt : K → K → Bool}
    {k : raw.Key} {val : Bytes} {m : List (K × V)}
    {desK : Bytes → Except Err K} {desV : Bytes → Except Err V} {kv : K} {w : V}
    (hk : ¬ k.key = []) (hdes : desK k.key = .ok kv) (hl : alookup kv m = some w) :
    insertKeyed lt k val m desK desV = .error (.DuplicateKey k) := by
  unfold insertKeyed
  rw [if_neg hk]
  simp [hdes, bind, Except.bind, hl]

/-- A preimage map whose digest is already bound answers a matching
pair with the duplicate-key error. -/
theorem insertHashKeyed_occupied {h : Bytes → Bytes} {ctor : Bytes → PsbtHash}
    {width : Nat} {k : raw.Key} {val : Bytes} {m : List (Bytes × Bytes)}
    {d : Bytes} {w : Bytes} (hk : ¬ k.key = [])
    (hdes : desDigest width k.key = .ok d) (hl : alookup d m = some w) :
    insertHashKeyed h ctor width k val m = .error (.DuplicateKey k) := by
  unfold insertHashKeyed
  rw [if_neg hk]
  simp [hdes, bind, Except.bind, hl]

/-- A proprietary bucket whose entry is already bound answers a
matching pair with the duplicate-key error. -/
theorem insertProprietary_occupied {k : raw.Key} {val : Bytes}
    {m : List (raw.ProprietaryKey × Bytes)} {pk : raw.ProprietaryKey} {w : Bytes}
    (hdes : raw.ProprietaryKey.from_key k = .ok pk)
    (hl : alookup pk m = some w) :
    insertProprietary k val m = .error (.DuplicateKey k) := by
  unfold insertProprietary
  simp [hdes, bind, Except.bind, hl]

/-- An unknown bucket whose entry is already bound answers a matching
pair with the duplicate-key error. -/
theorem insertUnknown_occupied {k : raw.Key} {val : Bytes}
    {m : List (raw.Key × Bytes)} {w : Bytes} (hl : alookup k m = some w) :
    insertUnknown k val m = .error (.DuplicateKey k) := by
  unfold insertUnknown
  rw [hl]

/-- The preimage-insert helper on a vacant digest: a mismatched
preimage is the preimage-mismatch error carrying the preimage and the
digest; a matching one is stored. -/
theorem insertHashKeyed_spec {h : Bytes → Bytes} {ctor : Bytes → PsbtHash}
    {width : Nat} {k : raw.Key} {val : Bytes} {m : List (Bytes × Bytes)}
    (hk : ¬ k.key = []) (hw : k.key.length = width)
    (hl : alookup k.key m = none) :
    (h val ≠ k.key →
      insertHashKeyed h ctor width k val m =
        .error (.InvalidPreimageHashPair val (ctor k.key))) ∧
    (h val = k.key →
      insertHashKeyed h ctor width k val m =
        .ok (sortedInsert bytesLt k.key val m)) := by
  have hdes : desDigest width k.key = .ok k.key := by
    unfold desDigest
    rw [if_pos hw]
  unfold insertHashKeyed
  rw [if_neg hk]
  constructor
  · intro hne
    simp [hdes, bind, Except.bind, hl, desBytes, pure, Except.pure, hne]
  · intro heq
    simp [hdes, bind, Except.bind, hl, desBytes, pure, Except.pure, heq]

/-- A pair accepted once and replayed inside one stream fails the whole
fold with the replay's error. -/
theorem foldlM_dup_error {σ : Type} (f : σ → raw.Pair → Except Err σ)
    (qs : List raw.Pair) {ps : List raw.Pair} {p : raw.Pair} {s₀ s s' : σ} {e : Err}
    (h1 : ps.foldlM f s₀ = .ok s) (h2 : f s p = .ok s') (h3 : f s' p = .error e) :
    (ps ++ p :: p :: qs).foldlM f s₀ = .error e := by
  rw [List.foldlM_append, h1]
  simp [bind, Except.bind, List.foldlM_cons, h2, h3]

/-- The optional-field push in terms of its stand-alone segment. -/
theorem pushOpt_eq {α : Type} (rv : List raw.Pair) (tag : Nat)
    (ser : α → Bytes) (o : Option α) :
    pushOpt rv tag ser o = rv ++ optPairSeg tag ser o := by
  cases o <;> simp [pushOpt, optPairSeg]

/-- Key-disjointness at one key, as a disjunction of lookups. -/
theorem keysDisjoint_or {K V : Type} [DecidableEq K] {l₁ l₂ : List (K × V)}
    (h : keysDisjoint l₁ l₂ = true) (k : K) :
    alookup k l₁ = none ∨ alookup k l₂ = none := by
  cases hl : alookup k l₁ with
  | none => exact Or.inl rfl
  | some v => exact Or.inr (keysDisjoint_lookup h hl)

/-- The partial-signature field of a merge is the kept union of the two
partial-signature maps. -/
theorem merge_partial_sigs (x y : Input) :
    (Input.merge x y).partial_sigs =
      unionKeep bytesLt x.partial_sigs y.partial_sigs := rfl

/-! ## The claims -/

/-- C10: for every `Global` map and every raw pair under the
unsigned-transaction tag `0x00` — whatever its key data or value —
`insert_pair` answers `DuplicateKey` carrying that key, and (the
embedding returning the error without building a new map) leaves the
map unchanged: the unsigned transaction can never be set or replaced
through `insert_pair`. -/
theorem C10_unsigned_tx_tag_always_duplicate (g : Global) (kd v : Bytes) :
    Global.insert_pair g ⟨⟨0x00, kd⟩, v⟩ = .error (.DuplicateKey ⟨0x00, kd⟩) := by
  unfold Global.insert_pair
  simp

/-- C2: merging an input map that supplies only a witness-output
descriptor into one that holds only a non-witness parent transaction
leaves the witness descriptor present and clears the non-witness parent
to `None`. -/
theorem C2_witness_supersedes_non_witness (self other : Input)
    (t : Transaction) (w : TxOut)
    (h1 : self.non_witness_utxo = some t) (h2 : self.witness_utxo = none)
    (h3 : other.witness_utxo = some w) (h4 : other.non_witness_utxo = none) :
    (Input.merge self other).witness_utxo = some w ∧
      (Input.merge self other).non_witness_utxo = none := by
  unfold Input.merge
  rw [h1, h2, h3]
  exact ⟨rfl, rfl⟩

/-- C2 witness: the concrete non-witness-only and witness-only maps. -/
theorem C2_witness_supersedes_non_witness_witness :
    (Input.merge inNW inWU).witness_utxo = some ⟨5, [6]⟩ ∧
      (Input.merge inNW inWU).non_witness_utxo = none :=
  C2_witness_supersedes_non_witness inNW inWU tx0 ⟨5, [6]⟩ rfl rfl rfl rfl

/-- C7: decoding a Global pair stream with no tag-`0x00` pair runs the
whole loop and then fails with `MustHaveUnsignedTx`; and the presence
check happens only after the loop — an error inside the loop is
reported instead, before any presence check. -/
theorem C7_missing_unsigned_tx_checked_after_loop :
    (∀ (ps : List raw.Pair) (s : GlobalDecodeState),
      (∀ p ∈ ps, p.key.type_value ≠ 0x00) →
      ps.foldlM globalStep globalDecodeInit = .ok s →
      Global.consensus_decode ps = .error .MustHaveUnsignedTx) ∧
    (∀ (ps : List raw.Pair) (e : Err),
      ps.foldlM globalStep globalDecodeInit = .error e →
      Global.consensus_decode ps = .error e) := by
  constructor
  · intro ps s hall hok
    have htx : s.tx = none := by
      rw [globalFold_tx_none hall hok]
      rfl
    unfold Global.consensus_decode
    simp [hok, bind, Except.bind, htx]
  · intro ps e herr
    unfold Global.consensus_decode
    simp [herr, bind, Except.bind]

/-- C7 witness: a stream holding one unknown pair and no unsigned
transaction. -/
theorem C7_missing_unsigned_tx_checked_after_loop_witness :
    Global.consensus_decode [upair] = .error .MustHaveUnsignedTx :=
  C7_missing_unsigned_tx_checked_after_loop.1 [upair]
    ⟨none, none, [(⟨0x42, [1]⟩, [5])], [], []⟩ (by decide) (by decide)

/-- C3 (code bug): round-tripping a Global map through
`get_pairs`/decode loses the version (and likewise the xpub registry):
`get_pairs` never emits the version or xpub fields, so the concrete map
`gRT` with version 1 decodes back with version 0, not equal to the
original. -/
theorem C3_roundtrip_drops_version :
    Global.consensus_decode (Global.get_pairs gRT) = .ok { gRT with version := 0 }
      ∧ ({ gRT with version := 0 } : Global) ≠ gRT := by
  constructor
  · decide
  · decide

/-- C4 (amended): `Input::get_pairs` emits exactly the declaration
order of the field table — each optional field exactly when present,
each keyed map in its stored (key) order, proprietary then unknown
last; `Global::get_pairs` emits the mandatory unsigned-transaction pair
first and then only the proprietary and unknown buckets — the xpub and
version fields are never emitted; and an optional field's segment is
empty exactly when the field is absent. -/
theorem C4_get_pairs_emission_order :
    (∀ g : Global, Global.get_pairs g =
      ⟨⟨0x00, []⟩, serUnsignedTxValue g.unsigned_tx⟩ ::
        (g.proprietary.map (fun kv => ⟨kv.1.to_key, kv.2⟩) ++
          g.unknown.map (fun kv => ⟨kv.1, kv.2⟩))) ∧
    (∀ i : Input, Input.get_pairs i =
      optPairSeg 0x00 serUnsignedTxValue i.non_witness_utxo ++
      optPairSeg 0x01 serTxOut i.witness_utxo ++
      i.partial_sigs.map (fun kv => ⟨⟨0x02, kv.1⟩, kv.2⟩) ++
      optPairSeg 0x03 u32LE i.sighash_type ++
      optPairSeg 0x04 (fun v => v) i.redeem_script ++
      optPairSeg 0x05 (fun v => v) i.witness_script ++
      i.bip32_derivation.map (fun kv => ⟨⟨0x06, kv.1⟩, serKeySource kv.2⟩) ++
      optPairSeg 0x07 (fun v => v) i.final_script_sig ++
      optPairSeg 0x08 serWitnessStack i.final_script_witness ++
      i.ripemd_preimages.map (fun kv => ⟨⟨10, kv.1⟩, kv.2⟩) ++
      i.sha256_preimages.map (fun kv => ⟨⟨11, kv.1⟩, kv.2⟩) ++
      i.hash160_preimages.map (fun kv => ⟨⟨12, kv.1⟩, kv.2⟩) ++
      i.hash256_preimages.map (fun kv => ⟨⟨13, kv.1⟩, kv.2⟩) ++
      i.proprietary.map (fun kv => ⟨kv.1.to_key, kv.2⟩) ++
      i.unknown.map (fun kv => ⟨kv.1, kv.2⟩)) ∧
    (∀ (α : Type) (tag : Nat) (ser : α → Bytes) (o : Option α),
      optPairSeg tag ser o = [] ↔ o = none) := by
  refine ⟨?_, ?_, ?_⟩
  · intro g
    simp [Global.get_pairs, foldl_push_eq_append]
  · intro i
    simp [Input.get_pairs, foldl_push_eq_append, pushOpt_eq, List.append_assoc]
  · intro α tag ser o
    cases o <;> simp [optPairSeg]

/-- C4 counterexample: the concrete Global map `gX` carries an xpub
registry entry, yet its emitted pair stream holds no pair under the
xpub tag `0x01` — "every present typed field is emitted" fails for
Global. -/
theorem C4_counterexample :
    (Global.get_pairs gX).filter (fun p => p.key.type_value == 0x01) = []
      ∧ gX.xpub ≠ [] := by
  constructor
  · decide
  · decide

/-- C6 (amended): a pair stream holding two raw pairs with identical
`(type_tag, key_data)` fails to decode with the duplicate-key error for
every Input field type and every Global field type except the xpub
registry, whose repeat fails with
`ParseFailed "Repeated global xpub key"` instead. -/
theorem C6_duplicate_pair_rejection :
    (∀ (H : HashFns) (ps qs : List raw.Pair) (p : raw.Pair) (i i' : Input),
      Input.consensus_decode H ps = .ok i →
      Input.insert_pair H i p = .ok i' →
      Input.consensus_decode H (ps ++ p :: p :: qs) =
        .error (.DuplicateKey p.key)) ∧
    (∀ (ps qs : List raw.Pair) (p : raw.Pair) (s s' : GlobalDecodeState),
      p.key.type_value ≠ 0x01 →
      ps.foldlM globalStep globalDecodeInit = .ok s →
      globalStep s p = .ok s' →
      Global.consensus_decode (ps ++ p :: p :: qs) =
        .error (.DuplicateKey p.key)) ∧
    (∀ (ps qs : List raw.Pair) (p : raw.Pair) (s s' : GlobalDecodeState),
      p.key.type_value = 0x01 →
      ps.foldlM globalStep globalDecodeInit = .ok s →
      globalStep s p = .ok s' →
      Global.consensus_decode (ps ++ p :: p :: qs) =
        .error (.ParseFailed "Repeated global xpub key")) := by
  refine ⟨?_, ?_, ?_⟩
  · intro H ps qs p i i' hps hp
    unfold Input.consensus_decode at hps ⊢
    exact foldlM_dup_error _ qs hps hp (input_insert_dup hp)
  · intro ps qs p s s' hne hps hp
    have hfold := foldlM_dup_error globalStep qs hps hp (globalStep_dup hne hp)
    unfold Global.consensus_decode
    simp [hfold, bind, Except.bind]
  · intro ps qs p s s' he hps hp
    have hfold := foldlM_dup_error globalStep qs hps hp (globalStep_xpub_dup he hp)
    unfold Global.consensus_decode
    simp [hfold, bind, Except.bind]

/-- C6 counterexample: a Global stream repeating one xpub pair decodes
to the parse-failed error naming the repeated xpub, not to the
duplicate-key error the claim demands for every field type. -/
theorem C6_counterexample :
    Global.consensus_decode [txPair0, xpair, xpair] =
      .error (.ParseFailed "Repeated global xpub key") := by
  decide

/-- C6 witness: a duplicated sighash pair in an Input stream and a
duplicated unknown pair in a Global stream. -/
theorem C6_duplicate_pair_rejection_witness :
    Input.consensus_decode hashFixed ([] ++ spair :: spair :: []) =
        .error (.DuplicateKey spair.key) ∧
      Global.consensus_decode ([] ++ upair :: upair :: []) =
        .error (.DuplicateKey upair.key) :=
  ⟨C6_duplicate_pair_rejection.1 hashFixed [] [] spair Input.default
      { Input.default with sighash_type := some 1 } (by decide) (by decide),
   C6_duplicate_pair_rejection.2.1 [] [] upair globalDecodeInit
      ⟨none, none, [(⟨0x42, [1]⟩, [5])], [], []⟩ (by decide) (by decide) (by decide)⟩

/-- C5 (amended): a raw pair whose target slot, unknown-map entry, or
proprietary-map entry is already populated is answered with
`DuplicateKey` carrying the pair's key — with one exception: Global's
version field, which is not an optional slot; its insert checks a
per-call local instead and silently overwrites (see the
counterexample).  The embedding returns the error in place of the
untouched map, mirroring that the source errors before any write. -/
theorem C5_populated_slot_duplicate_key :
    (∀ (H : HashFns) (i : Input) (p : raw.Pair),
      Input.slotOccupied i p.key = true →
      Input.insert_pair H i p = .error (.DuplicateKey p.key)) ∧
    (∀ (g : Global) (p : raw.Pair),
      Global.slotOccupied g p.key = true →
      Global.insert_pair g p = .error (.DuplicateKey p.key)) := by
  constructor
  · intro H i p hocc
    unfold Input.slotOccupied at hocc
    unfold Input.insert_pair
    by_cases h0 : p.key.type_value = 0x00
    · rw [if_pos h0] at hocc ⊢
      simp only [Bool.and_eq_true, List.isEmpty_iff, Option.isSome_iff_exists] at hocc
      rcases hocc with ⟨hk, v, hv⟩
      rw [hv]
      simp [insertUnkeyed_occupied hk, bind, Except.bind]
    · rw [if_neg h0] at hocc ⊢
      by_cases h1 : p.key.type_value = 0x01
      · rw [if_pos h1] at hocc ⊢
        simp only [Bool.and_eq_true, List.isEmpty_iff, Option.isSome_iff_exists] at hocc
        rcases hocc with ⟨hk, v, hv⟩
        rw [hv]
        simp [insertUnkeyed_occupied hk, bind, Except.bind]
      · rw [if_neg h1] at hocc ⊢
        by_cases h2 : p.key.type_value = 0x02
        · rw [if_pos h2] at hocc ⊢
          simp only [Bool.and_eq_true, Option.isSome_iff_exists] at hocc
          rcases hocc with ⟨⟨hk, hlen⟩, v, hv⟩
          simp only [Bool.not_eq_true', List.isEmpty_eq_false] at hk
          have hdes : desPubKey p.key.key = .ok p.key.key := by
            unfold desPubKey
            rw [if_pos hlen]
          simp [insertKeyed_occupied hk hdes hv, bind, Except.bind]
        · rw [if_neg h2] at hocc ⊢
          by_cases h3 : p.key.type_value = 0x03
          · rw [if_pos h3] at hocc ⊢
            simp only [Bool.and_eq_true, List.isEmpty_iff, Option.isSome_iff_exists] at hocc
            rcases hocc with ⟨hk, v, hv⟩
            rw [hv]
            simp [insertUnkeyed_occupied hk, bind, Except.bind]
          · rw [if_neg h3] at hocc ⊢
            by_cases h4 : p.key.type_value = 0x04
            · rw [if_pos h4] at hocc ⊢
              simp only [Bool.and_eq_true, List.isEmpty_iff, Option.isSome_iff_exists] at hocc
              rcases hocc with ⟨hk, v, hv⟩
              rw [hv]
              simp [insertUnkeyed_occupied hk, bind, Except.bind]
            · rw [if_neg h4] at hocc ⊢
              by_cases h5 : p.key.type_value = 0x05
              · rw [if_pos h5] at hocc ⊢
                simp only [Bool.and_eq_true, List.isEmpty_iff, Option.isSome_iff_exists] at hocc
                rcases hocc with ⟨hk, v, hv⟩
                rw [hv]
                simp [insertUnkeyed_occupied hk, bind, Except.bind]
              · rw [if_neg h5] at hocc ⊢
                by_cases h6 : p.key.type_value = 0x06
                · rw [if_pos h6] at hocc ⊢
                  simp only [Bool.and_eq_true, Option.isSome_iff_exists] at hocc
                  rcases hocc with ⟨⟨hk, hlen⟩, v, hv⟩
                  simp only [Bool.not_eq_true', List.isEmpty_eq_false] at hk
                  have hdes : desPubKey p.key.key = .ok p.key.key := by
                    unfold desPubKey
                    rw [if_pos hlen]
                  simp [insertKeyed_occupied hk hdes hv, bind, Except.bind]
                · rw [if_neg h6] at hocc ⊢
                  by_cases h7 : p.key.type_value = 0x07
                  · rw [if_pos h7] at hocc ⊢
                    simp only [Bool.and_eq_true, List.isEmpty_iff, Option.isSome_iff_exists] at hocc
                    rcases hocc with ⟨hk, v, hv⟩
                    rw [hv]
                    simp [insertUnkeyed_occupied hk, bind, Except.bind]
                  · rw [if_neg h7] at hocc ⊢
                    by_cases h8 : p.key.type_value = 0x08
                    · rw [if_pos h8] at hocc ⊢
                      simp only [Bool.and_eq_true, List.isEmpty_iff, Option.isSome_iff_exists] at hocc
                      rcases hocc with ⟨hk, v, hv⟩
                      rw [hv]
                      simp [insertUnkeyed_occupied hk, bind, Except.bind]
                    · rw [if_neg h8] at hocc ⊢
                      by_cases hfc : p.key.type_value = 0xFC
                      · rw [if_pos hfc] at hocc ⊢
                        cases hm : raw.ProprietaryKey.from_key p.key with
                        | error e => simp [hm] at hocc
                        | ok pk =>
                          simp only [hm, Option.isSome_iff_exists] at hocc
                          rcases hocc with ⟨v, hv⟩
                          simp [insertProprietary_occupied hm hv, bind, Except.bind]
                      · rw [if_neg hfc] at hocc ⊢
                        by_cases h10 : p.key.type_value = 10
                        · rw [if_pos h10] at hocc ⊢
                          simp only [Bool.and_eq_true, decide_eq_true_eq,
                            Option.isSome_iff_exists] at hocc
                          rcases hocc with ⟨hlen, v, hv⟩
                          have hk : ¬ p.key.key = [] := by
                            intro he
                            rw [he] at hlen
                            cases hlen
                          have hdes : desDigest 20 p.key.key = .ok p.key.key := by
                            unfold desDigest
                            rw [if_pos hlen]
                          simp [insertHashKeyed_occupied hk hdes hv, bind, Except.bind]
                        · rw [if_neg h10] at hocc ⊢
                          by_cases h11 : p.key.type_value = 11
                          · rw [if_pos h11] at hocc ⊢
                            simp only [Bool.and_eq_true, decide_eq_true_eq,
                              Option.isSome_iff_exists] at hocc
                            rcases hocc with ⟨hlen, v, hv⟩
                            have hk : ¬ p.key.key = [] := by
                              intro he
                              rw [he] at hlen
                              cases hlen
                            have hdes : desDigest 32 p.key.key = .ok p.key.key := by
                              unfold desDigest
                              rw [if_pos hlen]
                            simp [insertHashKeyed_occupied hk hdes hv, bind, Except.bind]
                          · rw [if_neg h11] at hocc ⊢
                            by_cases h12 : p.key.type_value = 12
                            · rw [if_pos h12] at hocc ⊢
                              simp only [Bool.and_eq_true, decide_eq_true_eq,
                                Option.isSome_iff_exists] at hocc
                              rcases hocc with ⟨hlen, v, hv⟩
                              have hk : ¬ p.key.key = [] := by
                                intro he
                                rw [he] at hlen
                                cases hlen
                              have hdes : desDigest 20 p.key.key = .ok p.key.key := by
                                unfold desDigest
                                rw [if_pos hlen]
                              simp [insertHashKeyed_occupied hk hdes hv, bind, Except.bind]
                            · rw [if_neg h12] at hocc ⊢
                              by_cases h13 : p.key.type_value = 13
                              · rw [if_pos h13] at hocc ⊢
                                simp only [Bool.and_eq_true, decide_eq_true_eq,
                                  Option.isSome_iff_exists] at hocc
                                rcases hocc with ⟨hlen, v, hv⟩
                                have hk : ¬ p.key.key = [] := by
                                  intro he
                                  rw [he] at hlen
                                  cases hlen
                                have hdes : desDigest 32 p.key.key = .ok p.key.key := by
                                  unfold desDigest
                                  rw [if_pos hlen]
                                simp [insertHashKeyed_occupied hk hdes hv, bind, Except.bind]
                              · rw [if_neg h13] at hocc ⊢
                                simp only [Option.isSome_iff_exists] at hocc
                                rcases hocc with ⟨v, hv⟩
                                simp [insertUnknown_occupied hv, bind, Except.bind]
  · intro g p hocc
    unfold Global.slotOccupied at hocc
    unfold Global.insert_pair
    by_cases h0 : p.key.type_value = 0x00
    · rw [if_pos h0]
    · rw [if_neg h0] at hocc ⊢
      by_cases h1 : p.key.type_value = 0x01
      · rw [if_pos h1] at hocc ⊢
        simp only [Bool.and_eq_true, decide_eq_true_eq, Option.isSome_iff_exists] at hocc
        rcases hocc with ⟨⟨hk, hlen⟩, v, hv⟩
        simp only [Bool.not_eq_true', List.isEmpty_eq_false] at hk
        have hdes : desXpub p.key.key = .ok p.key.key := by
          unfold desXpub
          rw [if_pos hlen]
        simp [insertKeyed_occupied hk hdes hv, bind, Except.bind]
      · rw [if_neg h1] at hocc ⊢
        by_cases hb : p.key.type_value = 0xFB
        · rw [if_pos hb] at hocc
          cases hocc
        · rw [if_neg hb] at hocc ⊢
          by_cases hfc : p.key.type_value = 0xFC
          · rw [if_pos hfc] at hocc ⊢
            cases hm : raw.ProprietaryKey.from_key p.key with
            | error e => simp [hm] at hocc
            | ok pk =>
              simp only [hm, Option.isSome_iff_exists] at hocc
              rcases hocc with ⟨v, hv⟩
              simp [insertProprietary_occupied hm hv, bind, Except.bind]
          · rw [if_neg hfc] at hocc ⊢
            simp only [Option.isSome_iff_exists] at hocc
            rcases hocc with ⟨v, hv⟩
            simp [insertUnknown_occupied hv, bind, Except.bind]

/-- C5 counterexample: the Global map `gV7` carries version 7, yet a
matching version pair is accepted (and overwrites) instead of being
answered with `DuplicateKey`. -/
theorem C5_counterexample :
    Global.insert_pair gV7 vpair = .ok gV7 ∧ gV7.version = 7 := by
  constructor
  · decide
  · decide

/-- C5 witness: a populated sighash slot in an Input map and a
populated unknown entry in a Global map. -/
theorem C5_populated_slot_duplicate_key_witness :
    Input.insert_pair hashFixed { Input.default with sighash_type := some 1 } spair
        = .error (.DuplicateKey spair.key) ∧
      Global.insert_pair { gV7 with unknown := [(⟨0x42, [1]⟩, [5])] } upair
        = .error (.DuplicateKey upair.key) :=
  ⟨C5_populated_slot_duplicate_key.1 hashFixed
      { Input.default with sighash_type := some 1 } spair (by decide),
   C5_populated_slot_duplicate_key.2
      { gV7 with unknown := [(⟨0x42, [1]⟩, [5])] } upair (by decide)⟩

/-- C8: every reachable Global map keeps every input of its unsigned
transaction free of spend proof — the constructor hands back the
transaction it was given and only accepts unsigned ones, rejects a
violating transaction with one of the two construction errors, decode
re-establishes the invariant (it rebuilds through the constructor), and
neither `insert_pair` nor `merge` can change the unsigned
transaction. -/
theorem C8_unsigned_tx_invariant :
    (∀ (tx : Transaction) (g : Global),
      Global.from_unsigned_tx tx = .ok g → g.unsigned_tx = tx ∧ txUnsigned tx) ∧
    (∀ tx : Transaction, ¬ txUnsigned tx →
      Global.from_unsigned_tx tx = .error .UnsignedTxHasScriptSigs ∨
      Global.from_unsigned_tx tx = .error .UnsignedTxHasScriptWitnesses) ∧
    (∀ (ps : List raw.Pair) (g : Global),
      Global.consensus_decode ps = .ok g → txUnsigned g.unsigned_tx) ∧
    (∀ (g : Global) (p : raw.Pair) (g' : Global),
      Global.insert_pair g p = .ok g' → g'.unsigned_tx = g.unsigned_tx) ∧
    (∀ (g o g' : Global),
      Global.merge g o = .ok g' → g'.unsigned_tx = g.unsigned_tx) := by
  have hconstr : ∀ (tx : Transaction) (g : Global),
      Global.from_unsigned_tx tx = .ok g → g.unsigned_tx = tx ∧ txUnsigned tx := by
    intro tx g h
    unfold Global.from_unsigned_tx at h
    cases hc : checkUnsignedInputs tx.input with
    | some e => simp [hc] at h
    | none =>
      rw [hc] at h
      simp only [Except.ok.injEq] at h
      exact ⟨by rw [← h], (checkUnsignedInputs_eq_none_iff tx.input).mp hc⟩
  refine ⟨hconstr, ?_, ?_, ?_, ?_⟩
  · intro tx hbad
    unfold Global.from_unsigned_tx
    cases hc : checkUnsignedInputs tx.input with
    | none => exact absurd ((checkUnsignedInputs_eq_none_iff tx.input).mp hc) hbad
    | some e =>
      rcases checkUnsignedInputs_some tx.input e hc with he | he
      · left; rw [he]
      · right; rw [he]
  · intro ps g h
    unfold Global.consensus_decode at h
    cases hf : ps.foldlM globalStep globalDecodeInit with
    | error e => simp [hf, bind, Except.bind] at h
    | ok s =>
      rw [hf] at h
      simp only [bind, Except.bind] at h
      cases hs : s.tx with
      | none => simp [hs] at h
      | some tx =>
        rw [hs] at h
        cases hg : Global.from_unsigned_tx tx with
        | error e => simp [hg, bind, Except.bind] at h
        | ok g0 =>
          simp only [hg, bind, Except.bind, pure, Except.pure,
            Except.ok.injEq] at h
          rcases hconstr tx g0 hg with ⟨he, hinv⟩
          rw [← h]
          show txUnsigned g0.unsigned_tx
          rw [he]
          exact hinv
  · intro g p g' h
    unfold Global.insert_pair at h
    by_cases h0 : p.key.type_value = 0x00
    · rw [if_pos h0] at h
      exact absurd h (by simp)
    · rw [if_neg h0] at h
      by_cases h1 : p.key.type_value = 0x01
      · rw [if_pos h1] at h
        cases hm : insertKeyed bytesLt p.key p.value g.xpub desXpub desKeySource with
        | error e => simp [hm, bind, Except.bind] at h
        | ok m =>
          simp only [hm, bind, Except.bind, pure, Except.pure,
            Except.ok.injEq] at h
          rw [← h]
      · rw [if_neg h1] at h
        by_cases hvb : p.key.type_value = 0xFB
        · rw [if_pos hvb] at h
          by_cases hk : p.key.key = []
          · rw [if_pos hk] at h
            cases hv : desU32 p.value with
            | error e => simp [hv, bind, Except.bind] at h
            | ok n =>
              simp only [hv, bind, Except.bind, pure, Except.pure,
                Except.ok.injEq] at h
              rw [← h]
          · rw [if_neg hk] at h
            exact absurd h (by simp)
        · rw [if_neg hvb] at h
          by_cases hfc : p.key.type_value = 0xFC
          · rw [if_pos hfc] at h
            cases hm : insertProprietary p.key p.value g.proprietary with
            | error e => simp [hm, bind, Except.bind] at h
            | ok m =>
              simp only [hm, bind, Except.bind, pure, Except.pure,
                Except.ok.injEq] at h
              rw [← h]
          · rw [if_neg hfc] at h
            cases hm : insertUnknown p.key p.value g.unknown with
            | error e => simp [hm, bind, Except.bind] at h
            | ok m =>
              simp only [hm, bind, Except.bind, pure, Except.pure,
                Except.ok.injEq] at h
              rw [← h]
  · intro g o g' h
    unfold Global.merge at h
    by_cases heq : g.unsigned_tx = o.unsigned_tx
    · rw [if_pos heq] at h
      simp only [Except.ok.injEq] at h
      rw [← h]
    · rw [if_neg heq] at h
      exact absurd h (by simp)

/-- C8 witness: the well-formed transaction `tx0` constructs and keeps
its transaction; the transaction `txBad`, whose first input carries a
signature script, is rejected at construction. -/
theorem C8_unsigned_tx_invariant_witness :
    (Global.from_unsigned_tx tx0 = .ok ⟨tx0, [], 0, [], []⟩ →
      (⟨tx0, [], 0, [], []⟩ : Global).unsigned_tx = tx0 ∧ txUnsigned tx0) ∧
    (Global.from_unsigned_tx txBad = .error .UnsignedTxHasScriptSigs ∨
      Global.from_unsigned_tx txBad = .error .UnsignedTxHasScriptWitnesses) :=
  ⟨C8_unsigned_tx_invariant.1 tx0 ⟨tx0, [], 0, [], []⟩,
   C8_unsigned_tx_invariant.2.1 txBad (by decide)⟩

/-- C9: for each of the four hash-preimage fields, inserting a pair
whose value does not hash to the key digest under the corresponding
collaborator hash fails with `InvalidPreimageHashPair` carrying the
preimage and the digest, while a matching pair is accepted and the
stored preimage reads back unchanged. -/
theorem C9_preimage_validation (H : HashFns) (i : Input) (kd val : Bytes) :
    (kd.length = 20 → alookup kd i.ripemd_preimages = none →
      (H.ripemd160 val ≠ kd →
        Input.insert_pair H i ⟨⟨10, kd⟩, val⟩ =
          .error (.InvalidPreimageHashPair val (.Ripemd160 kd))) ∧
      (H.ripemd160 val = kd → ∃ i',
        Input.insert_pair H i ⟨⟨10, kd⟩, val⟩ = .ok i' ∧
        alookup kd i'.ripemd_preimages = some val)) ∧
    (kd.length = 32 → alookup kd i.sha256_preimages = none →
      (H.sha256 val ≠ kd →
        Input.insert_pair H i ⟨⟨11, kd⟩, val⟩ =
          .error (.InvalidPreimageHashPair val (.Sha256 kd))) ∧
      (H.sha256 val = kd → ∃ i',
        Input.insert_pair H i ⟨⟨11, kd⟩, val⟩ = .ok i' ∧
        alookup kd i'.sha256_preimages = some val)) ∧
    (kd.length = 20 → alookup kd i.hash160_preimages = none →
      (H.hash160 val ≠ kd →
        Input.insert_pair H i ⟨⟨12, kd⟩, val⟩ =
          .error (.InvalidPreimageHashPair val (.Hash160 kd))) ∧
      (H.hash160 val = kd → ∃ i',
        Input.insert_pair H i ⟨⟨12, kd⟩, val⟩ = .ok i' ∧
        alookup kd i'.hash160_preimages = some val)) ∧
    (kd.length = 32 → alookup kd i.hash256_preimages = none →
      (H.sha256d val ≠ kd →
        Input.insert_pair H i ⟨⟨13, kd⟩, val⟩ =
          .error (.InvalidPreimageHashPair val (.Hash256 kd))) ∧
      (H.sha256d val = kd → ∃ i',
        Input.insert_pair H i ⟨⟨13, kd⟩, val⟩ = .ok i' ∧
        alookup kd i'.hash256_preimages = some val)) := by
  refine ⟨?_, ?_, ?_, ?_⟩
  · intro hlen hvac
    have hkne : ¬ kd = [] := by
      intro he
      rw [he] at hlen
      cases hlen
    have e10 : Input.insert_pair H i ⟨⟨10, kd⟩, val⟩ =
        insertHashKeyed H.ripemd160 PsbtHash.Ripemd160 20 ⟨10, kd⟩ val
          i.ripemd_preimages >>= fun m => pure { i with ripemd_preimages := m } := rfl
    constructor
    · intro hne
      rw [e10, (insertHashKeyed_spec hkne hlen hvac).1 hne]
      simp [bind, Except.bind]
    · intro heq
      refine ⟨{ i with
          ripemd_preimages := sortedInsert bytesLt kd val i.ripemd_preimages },
        ?_, ?_⟩
      · rw [e10, (insertHashKeyed_spec hkne hlen hvac).2 heq]
        simp [bind, Except.bind, pure, Except.pure]
      · show alookup kd (sortedInsert bytesLt kd val i.ripemd_preimages) = some val
        rw [alookup_sortedInsert]
        simp
  · intro hlen hvac
    have hkne : ¬ kd = [] := by
      intro he
      rw [he] at hlen
      cases hlen
    have e11 : Input.insert_pair H i ⟨⟨11, kd⟩, val⟩ =
        insertHashKeyed H.sha256 PsbtHash.Sha256 32 ⟨11, kd⟩ val
          i.sha256_preimages >>= fun m => pure { i with sha256_preimages := m } := rfl
    constructor
    · intro hne
      rw [e11, (insertHashKeyed_spec hkne hlen hvac).1 hne]
      simp [bind, Except.bind]
    · intro heq
      refine ⟨{ i with
          sha256_preimages := sortedInsert bytesLt kd val i.sha256_preimages },
        ?_, ?_⟩
      · rw [e11, (insertHashKeyed_spec hkne hlen hvac).2 heq]
        simp [bind, Except.bind, pure, Except.pure]
      · show alookup kd (sortedInsert bytesLt kd val i.sha256_preimages) = some val
        rw [alookup_sortedInsert]
        simp
  · intro hlen hvac
    have hkne : ¬ kd = [] := by
      intro he
      rw [he] at hlen
      cases hlen
    have e12 : Input.insert_pair H i ⟨⟨12, kd⟩, val⟩ =
        insertHashKeyed H.hash160 PsbtHash.Hash160 20 ⟨12, kd⟩ val
          i.hash160_preimages >>= fun m => pure { i with hash160_preimages := m } := rfl
    constructor
    · intro hne
      rw [e12, (insertHashKeyed_spec hkne hlen hvac).1 hne]
      simp [bind, Except.bind]
    · intro heq
      refine ⟨{ i with
          hash160_preimages := sortedInsert bytesLt kd val i.hash160_preimages },
        ?_, ?_⟩
      · rw [e12, (insertHashKeyed_spec hkne hlen hvac).2 heq]
        simp [bind, Except.bind, pure, Except.pure]
      · show alookup kd (sortedInsert bytesLt kd val i.hash160_preimages) = some val
        rw [alookup_sortedInsert]
        simp
  · intro hlen hvac
    have hkne : ¬ kd = [] := by
      intro he
      rw [he] at hlen
      cases hlen
    have e13 : Input.insert_pair H i ⟨⟨13, kd⟩, val⟩ =
        insertHashKeyed H.sha256d PsbtHash.Hash256 32 ⟨13, kd⟩ val
          i.hash256_preimages >>= fun m => pure { i with hash256_preimages := m } := rfl
    constructor
    · intro hne
      rw [e13, (insertHashKeyed_spec hkne hlen hvac).1 hne]
      simp [bind, Except.bind]
    · intro heq
      refine ⟨{ i with
          hash256_preimages := sortedInsert bytesLt kd val i.hash256_preimages },
        ?_, ?_⟩
      · rw [e13, (insertHashKeyed_spec hkne hlen hvac).2 heq]
        simp [bind, Except.bind, pure, Except.pure]
      · show alookup kd (sortedInsert bytesLt kd val i.hash256_preimages) = some val
        rw [alookup_sortedInsert]
        simp

/-- C9 witness: under the fixed-digest hash interface, a ripemd160
preimage pair with the wrong digest is rejected with the
preimage-mismatch error, and one with the right digest is stored and
reads back. -/
theorem C9_preimage_validation_witness :
    Input.insert_pair hashFixed Input.default ⟨⟨10, List.replicate 20 1⟩, [7]⟩ =
        .error (.InvalidPreimageHashPair [7] (.Ripemd160 (List.replicate 20 1))) ∧
      ∃ i', Input.insert_pair hashFixed Input.default
          ⟨⟨10, List.replicate 20 0⟩, [7]⟩ = .ok i' ∧
        alookup (List.replicate 20 0) i'.ripemd_preimages = some [7] :=
  ⟨((C9_preimage_validation hashFixed Input.default (List.replicate 20 1)
      [7]).1 (by decide) (by decide)).1 (by decide),
   ((C9_preimage_validation hashFixed Input.default (List.replicate 20 0)
      [7]).1 (by decide) (by decide)).2 (by decide)⟩

/-- C1 (amended): merge is idempotent on whole input maps, and folding
three input maps whose partial-signature maps are sorted with pairwise
disjoint keys yields, in every permutation order, the same final
partial-signature map.  (Unconditional per-field commutativity fails on
key collisions, where `self` wins: see the counterexample.) -/
theorem C1_merge_idempotent_disjoint_fold (a b c : Input)
    (ha : MapSorted bytesLt a.partial_sigs)
    (hb : MapSorted bytesLt b.partial_sigs)
    (hc : MapSorted bytesLt c.partial_sigs)
    (hab : keysDisjoint a.partial_sigs b.partial_sigs = true)
    (hac : keysDisjoint a.partial_sigs c.partial_sigs = true)
    (hbc : keysDisjoint b.partial_sigs c.partial_sigs = true) :
    (∀ x : Input, Input.merge x x = x) ∧
    ((Input.merge (Input.merge a b) c).partial_sigs
        = (Input.merge (Input.merge a c) b).partial_sigs ∧
      (Input.merge (Input.merge a b) c).partial_sigs
        = (Input.merge (Input.merge b a) c).partial_sigs ∧
      (Input.merge (Input.merge a b) c).partial_sigs
        = (Input.merge (Input.merge b c) a).partial_sigs ∧
      (Input.merge (Input.merge a b) c).partial_sigs
        = (Input.merge (Input.merge c a) b).partial_sigs ∧
      (Input.merge (Input.merge a b) c).partial_sigs
        = (Input.merge (Input.merge c b) a).partial_sigs) := by
  have htr : ∀ x y z : Bytes,
      bytesLt x y = true → bytesLt y z = true → bytesLt x z = true :=
    fun x y z h1 h2 => bytesLt_trans h1 h2
  have htot : ∀ x y : Bytes,
      bytesLt x y = false → bytesLt y x = false → x = y :=
    fun x y h1 h2 => bytesLt_eq_of_not_lt h1 h2
  have hasym : ∀ x y : Bytes, bytesLt x y = true → bytesLt y x = false :=
    fun x y h => bytesLt_asymm h
  constructor
  · intro x
    rcases x with ⟨f1, f2, f3, f4, f5, f6, f7, f8, f9, f10, f11, f12, f13, f14, f15⟩
    cases f1 <;> cases f2 <;>
      simp [Input.merge, unionKeep_self, optKeep_self]
  · have sab := mapSorted_unionKeep htr htot b.partial_sigs ha
    have sac := mapSorted_unionKeep htr htot c.partial_sigs ha
    have sba := mapSorted_unionKeep htr htot a.partial_sigs hb
    have sbc := mapSorted_unionKeep htr htot c.partial_sigs hb
    have sca := mapSorted_unionKeep htr htot a.partial_sigs hc
    have scb := mapSorted_unionKeep htr htot b.partial_sigs hc
    have sabc := mapSorted_unionKeep htr htot c.partial_sigs sab
    have sacb := mapSorted_unionKeep htr htot b.partial_sigs sac
    have sbac := mapSorted_unionKeep htr htot c.partial_sigs sba
    have sbca := mapSorted_unionKeep htr htot a.partial_sigs sbc
    have scab := mapSorted_unionKeep htr htot b.partial_sigs sca
    have scba := mapSorted_unionKeep htr htot a.partial_sigs scb
    simp only [merge_partial_sigs]
    refine ⟨?_, ?_, ?_, ?_, ?_⟩
    · refine mapSorted_ext (fun x => bytesLt_irrefl x) hasym sabc sacb ?_
      intro k
      simp only [alookup_unionKeep]
      exact (optKeep3_comm (keysDisjoint_or hab k) (keysDisjoint_or hac k)
        (keysDisjoint_or hbc k)).1
    · refine mapSorted_ext (fun x => bytesLt_irrefl x) hasym sabc sbac ?_
      intro k
      simp only [alookup_unionKeep]
      exact (optKeep3_comm (keysDisjoint_or hab k) (keysDisjoint_or hac k)
        (keysDisjoint_or hbc k)).2.1
    · refine mapSorted_ext (fun x => bytesLt_irrefl x) hasym sabc sbca ?_
      intro k
      simp only [alookup_unionKeep]
      exact (optKeep3_comm (keysDisjoint_or hab k) (keysDisjoint_or hac k)
        (keysDisjoint_or hbc k)).2.2.1
    · refine mapSorted_ext (fun x => bytesLt_irrefl x) hasym sabc scab ?_
      intro k
      simp only [alookup_unionKeep]
      exact (optKeep3_comm (keysDisjoint_or hab k) (keysDisjoint_or hac k)
        (keysDisjoint_or hbc k)).2.2.2.1
    · refine mapSorted_ext (fun x => bytesLt_irrefl x) hasym sabc scba ?_
      intro k
      simp only [alookup_unionKeep]
      exact (optKeep3_comm (keysDisjoint_or hab k) (keysDisjoint_or hac k)
        (keysDisjoint_or hbc k)).2.2.2.2

/-- C1 counterexample: two input maps holding conflicting partial
signatures under the same public key merge to different
partial-signature maps in the two orders — merge is not commutative on
each field. -/
theorem C1_counterexample :
    (Input.merge inA inB).partial_sigs ≠ (Input.merge inB inA).partial_sigs := by
  decide

/-- C1 witness: three concrete disjoint single-signature maps fold to
the same signature map in two permutation orders, and merge is
idempotent at a concrete map. -/
theorem C1_merge_idempotent_disjoint_fold_witness :
    Input.merge inA inA = inA ∧
      (Input.merge (Input.merge inP1 inP2) inP3).partial_sigs
        = (Input.merge (Input.merge inP3 inP2) inP1).partial_sigs :=
  ⟨(C1_merge_idempotent_disjoint_fold inP1 inP2 inP3 (by decide) (by decide)
      (by decide) (by decide) (by decide) (by decide)).1 inA,
   (C1_merge_idempotent_disjoint_fold inP1 inP2 inP3 (by decide) (by decide)
      (by decide) (by decide) (by decide) (by decide)).2.2.2.2.2⟩

end Psbt
